import Mathlib

/-!
Verification of the barebrowse snapshot engine against its specification.

The engine is embedded shallowly: the accessibility-tree data model, the
tree builder (`buildTree` in src/index.js), the formatter (`formatTree` in
src/aria.js), the pruning pipeline (src/prune.js), the key dispatcher
(src/interact.js) and the challenge detector (`isChallengePage` in
src/index.js) are translated into executable Lean definitions, and the
specified properties are proved or refuted about those definitions.

Modelling conventions:
* JS strings are Lean `String`s (a character is a code point).
* Absent string fields are `""` and absent numeric fields are `0`,
  mirroring the JS truthiness checks the source performs on them.
* JS `Map` objects threaded by mutation are passed as explicit state.
* Regular-expression tests are embedded as executable matchers over a
  token language of literals, whitespace gaps and arbitrary gaps, which
  covers every pattern the source uses.
-/

namespace BB

/-- JS whitespace class, as used by the source's regexes. -/
def isWsChar (c : Char) : Bool :=
  c = ' ' || c = '\t' || c = '\n' || c = '\r' || c = '\x0b' || c = '\x0c'

/-- One token of an embedded regular expression alternative:
a literal string, a zero-or-more whitespace gap, or an arbitrary gap. -/
inductive Tok : Type where
  | lit (s : List Char) : Tok
  | ws : Tok
  | gap : Tok
deriving Repr, DecidableEq

/-- Match a token sequence at the beginning of a character list; the fuel
only serves structural recursion and every call site supplies enough of
it (each step consumes a token or a character). -/
def matchToksF : Nat → List Tok → List Char → Bool
  | 0, _, _ => false
  | _ + 1, [], _ => true
  | fuel + 1, Tok.lit l :: ts, cs =>
    l.isPrefixOf cs && matchToksF fuel ts (cs.drop l.length)
  | fuel + 1, Tok.ws :: ts, cs =>
    matchToksF fuel ts cs ||
      (match cs with
       | [] => false
       | c :: rest => isWsChar c && matchToksF fuel (Tok.ws :: ts) rest)
  | fuel + 1, Tok.gap :: ts, cs =>
    matchToksF fuel ts cs ||
      (match cs with
       | [] => false
       | _ :: rest => matchToksF fuel (Tok.gap :: ts) rest)

/-- Match a token sequence at the beginning of a character list. -/
def matchToks (ts : List Tok) (cs : List Char) : Bool :=
  matchToksF (ts.length + cs.length + 1) ts cs

/-- Match a token sequence at any position of a character list
(unanchored search, like JS `RegExp.test`). -/
def occursToks (ts : List Tok) : List Char → Bool
  | [] => matchToks ts []
  | c :: rest => matchToks ts (c :: rest) || occursToks ts rest

/-- `String.prototype.toLowerCase()` (ASCII case mapping). -/
def lowerStr (s : String) : String :=
  String.mk (s.data.map Char.toLower)

/-- `String.prototype.trim()`. -/
def jsTrim (s : String) : String :=
  String.mk (((s.data.dropWhile isWsChar).reverse.dropWhile isWsChar).reverse)

/-- Case-insensitive unanchored test of an alternation of token
sequences against a string. -/
def testPat (alts : List (List Tok)) (s : String) : Bool :=
  alts.any (fun ts => occursToks ts (lowerStr s).data)

/-- A plain literal alternative. -/
def alt (s : String) : List Tok := [Tok.lit s.data]

/-- Case-insensitive substring alternation test (patterns without gaps). -/
def testSubs (pats : List String) (s : String) : Bool :=
  testPat (pats.map alt) s

/-! ## Data model

`Props` embeds the property bag `extractProps` builds from the raw CDP
records; only the keys the source ever reads are represented, with the
types CDP delivers for them (`level` is numeric, `selected`, `disabled`,
`required` are booleans, the rest are rendered strings).  `RawNode` is one
record of the flat batch returned by Accessibility.getFullAXTree after the
`?.value || ''` normalisations `buildTree` applies; `AXNode` is the nested
snapshot tree node. -/

structure Props : Type where
  checked : Option String := none
  disabled : Bool := false
  expanded : Option String := none
  level : Option Nat := none
  selected : Bool := false
  required : Bool := false
  value : Option String := none
deriving Repr, DecidableEq

structure RawNode : Type where
  nodeId : String
  parentId : String := ""
  backendDOMNodeId : Nat := 0
  role : String := ""
  name : String := ""
  props : Props := {}
  ignored : Bool := false
deriving Repr, DecidableEq

inductive AXNode : Type where
  | mk (nodeId : String) (backendDOMNodeId : Nat) (role : String)
      (name : String) (props : Props) (ignored : Bool)
      (children : List AXNode) : AXNode
deriving Repr

def AXNode.nodeId : AXNode → String
  | .mk i _ _ _ _ _ _ => i

def AXNode.backendDOMNodeId : AXNode → Nat
  | .mk _ b _ _ _ _ _ => b

def AXNode.role : AXNode → String
  | .mk _ _ r _ _ _ _ => r

def AXNode.name : AXNode → String
  | .mk _ _ _ n _ _ _ => n

def AXNode.props : AXNode → Props
  | .mk _ _ _ _ p _ _ => p

def AXNode.ignored : AXNode → Bool
  | .mk _ _ _ _ _ g _ => g

def AXNode.children : AXNode → List AXNode
  | .mk _ _ _ _ _ _ cs => cs

mutual

def AXNode.beq : AXNode → AXNode → Bool
  | .mk i b r n p g cs, .mk i' b' r' n' p' g' cs' =>
    decide (i = i') && decide (b = b') && decide (r = r') &&
    decide (n = n') && decide (p = p') && decide (g = g') &&
    AXNode.beqList cs cs'

def AXNode.beqList : List AXNode → List AXNode → Bool
  | [], [] => true
  | c :: cs, c' :: cs' => AXNode.beq c c' && AXNode.beqList cs cs'
  | _, _ => false

end

mutual

theorem AXNode.eq_of_beq : ∀ a b : AXNode, AXNode.beq a b = true → a = b
  | .mk i b r n p g cs, .mk i' b' r' n' p' g' cs', h => by
    simp only [AXNode.beq, Bool.and_eq_true, decide_eq_true_eq] at h
    obtain ⟨⟨⟨⟨⟨⟨h1, h2⟩, h3⟩, h4⟩, h5⟩, h6⟩, h7⟩ := h
    have := AXNode.eqList_of_beqList cs cs' h7
    subst h1; subst h2; subst h3; subst h4; subst h5; subst h6
    rw [this]

theorem AXNode.eqList_of_beqList :
    ∀ cs cs' : List AXNode, AXNode.beqList cs cs' = true → cs = cs'
  | [], [], _ => rfl
  | c :: cs, c' :: cs', h => by
    simp only [AXNode.beqList, Bool.and_eq_true] at h
    rw [AXNode.eq_of_beq c c' h.1, AXNode.eqList_of_beqList cs cs' h.2]

end

mutual

theorem AXNode.beq_refl : ∀ a : AXNode, AXNode.beq a a = true
  | .mk i b r n p g cs => by
    simp [AXNode.beq, AXNode.beqList_refl cs]

theorem AXNode.beqList_refl : ∀ cs : List AXNode, AXNode.beqList cs cs = true
  | [] => rfl
  | c :: cs => by
    simp only [AXNode.beqList, Bool.and_eq_true]
    exact ⟨AXNode.beq_refl c, AXNode.beqList_refl cs⟩

end

instance : DecidableEq AXNode := fun a b =>
  decidable_of_iff (AXNode.beq a b = true)
    ⟨AXNode.eq_of_beq a b, fun h => h ▸ AXNode.beq_refl a⟩

/-- The JS object spread `{ ...node, children: cs }`. -/
def AXNode.withChildren : AXNode → List AXNode → AXNode
  | .mk i b r n p g _, cs => .mk i b r n p g cs

/-- The JS object spread `{ ...node, role: r2, children: cs }`. -/
def AXNode.withRoleChildren : AXNode → String → List AXNode → AXNode
  | .mk i b _ n p g _, r2, cs => .mk i b r2 n p g cs

/-- The JS object spread `{ ...node, role: r2, name: n2, children: [] }`. -/
def AXNode.withRoleNameNoChildren : AXNode → String → String → AXNode
  | .mk i b _ _ p g _, r2, n2 => .mk i b r2 n2 p g []

/-- The JS object spread `{ ...node, name: n2, children: [] }`. -/
def AXNode.withNameNoChildren : AXNode → String → AXNode
  | .mk i b r _ p g _, n2 => .mk i b r n2 p g []

/-! ## Role taxonomy (src/prune.js) -/

def LANDMARKS : List String :=
  ["banner", "main", "contentinfo", "navigation", "complementary",
   "search", "form", "region"]

def INTERACTIVE : List String :=
  ["button", "link", "textbox", "searchbox", "checkbox", "radio",
   "combobox", "listbox", "menuitem", "menuitemcheckbox", "menuitemradio",
   "option", "slider", "spinbutton", "switch", "tab", "treeitem"]

def GROUPS : List String :=
  ["radiogroup", "tablist", "menu", "menubar", "toolbar",
   "listbox", "tree", "treegrid", "grid"]

def STRUCTURAL : List String :=
  ["generic", "group", "list", "table", "row", "rowgroup", "cell",
   "directory", "document", "application", "presentation", "none", "separator",
   "LayoutTable", "LayoutTableRow", "LayoutTableCell"]

/-- `MODE_REGIONS[mode] || MODE_REGIONS.act`. -/
def modeRegions (mode : String) : List String :=
  if mode = "act" then ["main"]
  else if mode = "browse" then ["main"]
  else if mode = "navigate" then ["main", "banner", "navigation", "search"]
  else if mode = "full" then
    ["main", "banner", "navigation", "contentinfo", "complementary", "search"]
  else ["main"]

/-- prune.js SKIP_ROLES (rendering noise dropped by `pruneNode`). -/
def pruneSkipRoles : List String := ["InlineTextBox", "LineBreak", "superscript"]

/-- aria.js SKIP_ROLES (rendering noise skipped by `formatTree`). -/
def ariaSkipRoles : List String := ["InlineTextBox", "LineBreak"]

/-! ## Vocabulary patterns (the regexes of src/prune.js and src/index.js) -/

/-- `/image|review|recommend|related|similar|also viewed|cookie/i`. -/
def auxPatterns : String → Bool :=
  testSubs ["image", "review", "recommend", "related", "similar",
            "also viewed", "cookie"]

/-- `/kleuren|colors?|couleurs?|farben/i` (the optional plural `s?` is
covered by substring search on the singular). -/
def colorsPat : String → Bool :=
  testSubs ["kleuren", "color", "couleur", "farben"]

/-- `/about this|description|detail|feature|specification|overview/i`. -/
def descriptionPat : String → Bool :=
  testSubs ["about this", "description", "detail", "feature",
            "specification", "overview"]

/-- `/\$[\d,]+\.?\d*|€[\d,]+/`: a currency sign immediately followed by a
digit or comma (the rest of the pattern can match empty). -/
def pricePat (s : String) : Bool :=
  go s.data
where
  go : List Char → Bool
    | a :: b :: rest =>
      ((a = '$' || a = '€') && (b.isDigit || b = ',')) || go (b :: rest)
    | _ => false

/-- `/in stock|out of stock|unavailable|available/i`. -/
def stockPat : String → Bool :=
  testSubs ["in stock", "out of stock", "unavailable", "available"]

/-- `/delivery|shipping|free/i`. -/
def shippingPat : String → Bool :=
  testSubs ["delivery", "shipping", "free"]

/-- `/^[|»·•→←>\-]$/` applied to the trimmed text. -/
def loneSeparatorPat (s : String) : Bool :=
  match s.data with
  | [c] => c = '|' || c = '»' || c = '·' || c = '•' || c = '→' ||
      c = '←' || c = '>' || c = '-'
  | _ => false

/-- prune.js NOISE_BUTTONS. -/
def NOISE_BUTTONS : String → Bool :=
  testPat
    [alt "energieklasse",
     [Tok.lit "energy".data, Tok.ws, Tok.lit "class".data],
     alt "productinformatieblad",
     [Tok.lit "product".data, Tok.ws, Tok.lit "information".data,
      Tok.ws, Tok.lit "sheet".data],
     alt "gesponsorde",
     alt "sponsored",
     [Tok.lit "ad".data, Tok.ws, Tok.lit "feedback".data],
     [Tok.lit "sterren".data, Tok.gap, Tok.lit "details".data,
      Tok.gap, Tok.lit "beoordeling".data],
     [Tok.lit "stars".data, Tok.gap, Tok.lit "rating".data,
      Tok.gap, Tok.lit "detail".data]]

/-- prune.js NOISE_LINKS: anchored alternatives, so a full-string match. -/
def NOISE_LINKS (s : String) : Bool :=
  lowerStr s = "opties bekijken" || lowerStr s = "view options" ||
  lowerStr s = "see options" || lowerStr s = "voir les options"

/-- prune.js FOOTER_LINKS. -/
def FOOTER_LINKS : String → Bool :=
  testPat
    [[Tok.lit "gebruiks".data, Tok.gap, Tok.lit "voorwaarden".data],
     [Tok.lit "conditions".data, Tok.gap, Tok.lit "use".data],
     alt "privacy",
     alt "cookie",
     alt "contactgegevens",
     [Tok.lit "contact".data, Tok.ws, Tok.lit "info".data],
     alt "advertenties",
     [Tok.lit "interest".data, Tok.gap, Tok.lit "ads".data],
     [Tok.lit "lees".data, Tok.ws, Tok.lit "meer".data, Tok.ws,
      Tok.lit "over".data, Tok.ws, Tok.lit "deze".data, Tok.ws,
      Tok.lit "resultaten".data]]

/-- `/terug naar boven|back to top/i` (from `isFooterMarker`). -/
def backToTopPat : String → Bool :=
  testSubs ["terug naar boven", "back to top"]

/-- `/gerelateerde zoek|related search|hulp nodig|need help/i`. -/
def relatedSearchPat : String → Bool :=
  testSubs ["gerelateerde zoek", "related search", "hulp nodig", "need help"]

/-- `/filter/i` (from `isSkippable`). -/
def filterWordPat : String → Bool :=
  testSubs ["filter"]

/-- prune.js FILTER_GROUP. -/
def FILTER_GROUP : String → Bool :=
  testPat
    [alt "toepassen om de resultaten",
     [Tok.lit "filter".data, Tok.gap, Tok.lit "to narrow".data],
     [Tok.lit "apply".data, Tok.gap, Tok.lit "filter".data],
     alt "refine by"]

/-! ## Formatting (src/aria.js `formatTree`) -/

/-- The property bracket `[checked=…, disabled, …]` of one output line. -/
def propParts (p : Props) : List String :=
  (match p.checked with | some c => ["checked=" ++ c] | none => []) ++
  (if p.disabled then ["disabled"] else []) ++
  (match p.expanded with | some e => ["expanded=" ++ e] | none => []) ++
  (match p.level with
   | some l => if l ≠ 0 then ["level=" ++ toString l] else []
   | none => []) ++
  (if p.selected then ["selected"] else []) ++
  (if p.required then ["required"] else []) ++
  (match p.value with
   | some v => if v ≠ "" then ["value=\"" ++ v ++ "\""] else []
   | none => [])

/-- `'  '.repeat(depth)`. -/
def indentOf (depth : Nat) : String :=
  String.join (List.replicate depth "  ")

/-- The single output line `formatTree` builds for a non-skipped node. -/
def lineFor (n : AXNode) (depth : Nat) : String :=
  let base := indentOf depth ++ "- " ++ (if n.role = "" then "none" else n.role)
  let base := if n.name ≠ "" then base ++ " \"" ++ n.name ++ "\"" else base
  let parts := propParts n.props
  let base :=
    if parts ≠ [] then base ++ " [" ++ String.intercalate ", " parts ++ "]"
    else base
  if n.nodeId ≠ "" then base ++ " [ref=" ++ n.nodeId ++ "]" else base

mutual

/-- src/aria.js `formatTree` on a non-null node. -/
def formatTree (n : AXNode) (depth : Nat) : String :=
  match n with
  | .mk i b r nm p g cs =>
    if g then
      String.intercalate "\n"
        ((formatList cs depth).filter (fun s => s ≠ ""))
    else if ariaSkipRoles.contains r then ""
    else
      String.intercalate "\n"
        (lineFor (.mk i b r nm p g cs) depth ::
          (formatList cs (depth + 1)).filter (fun s => s ≠ ""))

/-- `node.children.map((c) => formatTree(c, depth))`. -/
def formatList (cs : List AXNode) (depth : Nat) : List String :=
  match cs with
  | [] => []
  | c :: rest => formatTree c depth :: formatList rest depth

end

/-- `formatTree` at the call sites that may receive `null`. -/
def formatTreeOpt (t : Option AXNode) : String :=
  match t with
  | none => ""
  | some n => formatTree n 0

mutual

/-- The `[ref=N]` markers `formatTree` emits, in document order: one for
every non-ignored, non-skipped node whose `nodeId` is truthy. -/
def emittedRefs (n : AXNode) : List String :=
  match n with
  | .mk i _ r _ _ g cs =>
    if g then emittedRefsList cs
    else if ariaSkipRoles.contains r then []
    else (if i ≠ "" then [i] else []) ++ emittedRefsList cs

def emittedRefsList (cs : List AXNode) : List String :=
  match cs with
  | [] => []
  | c :: rest => emittedRefs c ++ emittedRefsList rest

end

def emittedRefsOpt (t : Option AXNode) : List String :=
  match t with
  | none => []
  | some n => emittedRefs n

/-! ## Pruning pipeline (src/prune.js) -/

/-- The traversal context of `pruneNode`: mode, parent role (JS `null`
becomes `""`) and the lower-cased context keywords. -/
structure Ctx : Type where
  mode : String
  parentRole : String
  keywords : List String
deriving Repr, DecidableEq

mutual

/-- prune.js `hasInteractive`. -/
def hasInteractive (n : AXNode) : Bool :=
  match n with
  | .mk _ _ r _ _ _ cs =>
    INTERACTIVE.contains r || GROUPS.contains r || hasInteractiveList cs

def hasInteractiveList (cs : List AXNode) : Bool :=
  match cs with
  | [] => false
  | c :: rest => hasInteractive c || hasInteractiveList rest

end

mutual

/-- prune.js `hasHeading`. -/
def hasHeading (n : AXNode) : Bool :=
  match n with
  | .mk _ _ r _ _ _ cs => r = "heading" || hasHeadingList cs

def hasHeadingList (cs : List AXNode) : Bool :=
  match cs with
  | [] => false
  | c :: rest => hasHeading c || hasHeadingList rest

end

mutual

/-- prune.js `extractText`: the node's name followed by a space-prefixed
copy of each child's text. -/
def extractText (n : AXNode) : String :=
  match n with
  | .mk _ _ _ nm _ _ cs => nm ++ extractTextList cs

def extractTextList (cs : List AXNode) : String :=
  match cs with
  | [] => ""
  | c :: rest => " " ++ extractText c ++ extractTextList rest

end

mutual

/-- prune.js `flatten`: pre-order listing of a forest. -/
def flattenT (ns : List AXNode) : List AXNode :=
  match ns with
  | [] => []
  | n :: rest => n :: flattenChildren n ++ flattenT rest

def flattenChildren (n : AXNode) : List AXNode :=
  match n with
  | .mk _ _ _ _ _ _ cs => flattenT cs

end

/-- prune.js `condenseCard`: reduce a non-matching product card to its
first named link. -/
def condenseCard (n : AXNode) : Option AXNode :=
  let all := flattenT [n]
  match all.find? (fun m => m.role = "link" && m.name ≠ "") with
  | none => none
  | some l =>
    some (.mk n.nodeId 0 "listitem" "" {} false [l.withChildren []])

/-- prune.js `collapseColors`: summarise a colour-swatch group. -/
def collapseColors (n : AXNode) : Option AXNode :=
  let all := flattenT [n]
  let colors := (all.filter
    (fun m => m.role = "link" && m.name ≠ "" && !("+".data.isPrefixOf m.name.data))).map
    (fun m => m.name)
  if colors = [] then
    match all.find? (fun m => m.role = "link" && m.name ≠ "") with
    | some p => some (p.withChildren [])
    | none => none
  else
    some (.mk n.nodeId 0 "StaticText"
      ("colors(" ++ toString colors.length ++ "): " ++
        String.intercalate ", " colors) {} false [])

/-- `/image|review|recommend|related|similar|also viewed/i`, the aux-region
vocabulary inside `pruneNode` (unlike `isRegionAllowed`, without
`cookie`). -/
def auxRegionPat : String → Bool :=
  testSubs ["image", "review", "recommend", "related", "similar",
            "also viewed"]

/-- `text.includes(kw)` on already-lower-cased text. -/
def kwIncludes (text kw : String) : Bool :=
  occursToks [Tok.lit kw.data] text.data

/-- prune.js `keepText`. -/
def keepText (n : AXNode) (mode : String) : Bool :=
  let t := n.name
  if t = "" then false
  else if mode = "browse" then
    !(t.length ≤ 2 && loneSeparatorPat (jsTrim t))
  else
    pricePat t || stockPat t || shippingPat t ||
    (t.length < 40 && ":".data.isSuffixOf t.data) || t.length < 30

mutual

/-- prune.js `pruneNode`, the per-node pruning rules. -/
def pruneNode (n : AXNode) (ctx : Ctx) : Option AXNode :=
  match n with
  | .mk i b r nm p g cs =>
    if pruneSkipRoles.contains r then none
    else
      let isBrowse := ctx.mode = "browse"
      let level := p.level
      if ctx.mode = "act" ∧ r = "link" ∧ ctx.parentRole = "paragraph" then
        none
      else if r = "paragraph" then
        if ctx.mode = "act" then none
        else some (.mk i b r nm p g (pruneChildren cs ctx))
      else if isBrowse ∧ r = "navigation" then none
      else if r = "code" then some (.mk i b r nm p g cs)
      else if r = "term" ∨ r = "definition" then
        some (.mk i b r nm p g (pruneChildren cs ctx))
      else if isBrowse ∧ (r = "strong" ∨ r = "emphasis" ∨
          r = "blockquote") then
        some (.mk i b r nm p g (pruneChildren cs ctx))
      else if isBrowse ∧ r = "figure" then
        if nm ≠ "" then
          some (.mk i b "StaticText" ("[Figure: " ++ nm ++ "]") p g [])
        else none
      else if INTERACTIVE.contains r then
        some (.mk i b r nm p g (pruneChildren cs ctx))
      else if ¬isBrowse ∧ ¬ctx.keywords.isEmpty ∧ r = "listitem" ∧
          hasInteractive (.mk i b r nm p g cs) ∧
          ¬(ctx.keywords.any (fun kw =>
            kwIncludes (lowerStr (extractText (.mk i b r nm p g cs))) kw)) then
        condenseCard (.mk i b r nm p g cs)
      else if GROUPS.contains r ∧ nm ≠ "" then
        some (.mk i b r nm p g (pruneChildren cs ctx))
      else if r = "group" ∧ nm ≠ "" then
        if ¬isBrowse ∧ colorsPat nm then collapseColors (.mk i b r nm p g cs)
        else some (.mk i b r nm p g (pruneChildren cs ctx))
      else if r = "heading" then
        if ¬isBrowse ∧ level ≠ some 1 ∧ nm ≠ "" ∧ descriptionPat nm then
          none
        else some (.mk i b r nm p g [])
      else if r = "StaticText" then
        if keepText (.mk i b r nm p g cs) ctx.mode then
          some (.mk i b r nm p g cs)
        else none
      else if r = "img" ∨ r = "image" then
        if isBrowse ∧ nm ≠ "" then some (.mk i b r nm p g []) else none
      else if r = "separator" then none
      else if r = "complementary" then
        if isBrowse then some (.mk i b r nm p g (pruneChildren cs ctx))
        else none
      else if r = "region" ∧ ¬isBrowse ∧ nm ≠ "" ∧ auxRegionPat nm then
        none
      else if isBrowse ∧ (r = "note" ∨ r = "status") then
        some (.mk i b r nm p g (pruneChildren cs ctx))
      else
        let childCtx : Ctx := ⟨ctx.mode, r, ctx.keywords⟩
        let keptChildren := pruneChildren cs childCtx
        if ¬isBrowse ∧ r = "list" ∧
            keptChildren.all (fun c => !hasInteractive c) then none
        else if ¬isBrowse ∧ r = "listitem" ∧
            ¬hasInteractive (.mk i b r nm p g cs) then none
        else if ¬keptChildren.isEmpty then some (.mk i b r nm p g keptChildren)
        else none

/-- prune.js `pruneChildren`: prune a child list, keeping survivors. -/
def pruneChildren (cs : List AXNode) (ctx : Ctx) : List AXNode :=
  match cs with
  | [] => []
  | c :: rest =>
    match pruneNode c ctx with
    | some c2 => c2 :: pruneChildren rest ctx
    | none => pruneChildren rest ctx

end

/-- prune.js `isRegionAllowed`. -/
def isRegionAllowed (n : AXNode) (allowed : List String) : Bool :=
  if allowed.contains n.role then true
  else if n.role = "region" && allowed.contains "main" then
    if n.name ≠ "" && auxPatterns n.name then false else true
  else false

/-- The unwrap step of `extractRegions`:
`if (nodes.length === 1 && (RootWebArea || WebArea)) nodes = nodes[0].children`. -/
def unwrapWebArea : List AXNode → List AXNode
  | [] => []
  | [n] =>
    if n.role = "RootWebArea" || n.role = "WebArea" then n.children
    else [n]
  | n :: m :: rest => n :: m :: rest

/-- prune.js `extractRegions` (step 1 of the pipeline). -/
def extractRegions (nodes0 : List AXNode) (allowed : List String) :
    List AXNode :=
  let nodes := unwrapWebArea nodes0
  let hasLandmarks := nodes.any (fun n => LANDMARKS.contains n.role)
  let hasMain :=
    match nodes.find? (fun n => n.role = "main") with
    | some m => hasInteractive m || hasHeading m
    | none => false
  nodes.filter (fun node =>
    if LANDMARKS.contains node.role then isRegionAllowed node allowed
    else if hasLandmarks && hasMain then allowed.contains "navigation"
    else if hasLandmarks && !hasMain then
      hasInteractive node || hasHeading node
    else true)

mutual

/-- prune.js `collapse` (step 3): collapse unnamed structural wrappers
post-order; a wrapper keeping two or more children receives the special
role `_promote`. -/
def collapse (n : AXNode) : Option AXNode :=
  match n with
  | .mk i b r nm p g cs =>
    let cs2 := collapseList cs
    let isTableLayout :=
      "LayoutTable".data.isPrefixOf r.data || r = "row" || r = "cell" ||
        r = "rowgroup"
    if (STRUCTURAL.contains r ∧ nm = "") ∨ isTableLayout then
      match cs2 with
      | [] => none
      | [c] => some c
      | _ => some (.mk i b "_promote" nm p g cs2)
    else some (.mk i b r nm p g cs2)

def collapseList (cs : List AXNode) : List AXNode :=
  match cs with
  | [] => []
  | c :: rest =>
    match collapse c with
    | some c2 => c2 :: collapseList rest
    | none => collapseList rest

end

/-- prune.js `dropOrphanedHeadings` inner scan: is there an interactive
sibling before the next heading? -/
def interactiveBeforeHeading : List AXNode → Bool
  | [] => false
  | c :: rest =>
    if c.role = "heading" then false
    else if hasInteractive c then true
    else interactiveBeforeHeading rest

/-- prune.js `dropOrphanedHeadings` (act-family modes). -/
def dropOrphanedHeadings : List AXNode → List AXNode
  | [] => []
  | c :: rest =>
    if c.role = "heading" ∧ c.props.level ≠ some 1 ∧
        ¬interactiveBeforeHeading rest then
      dropOrphanedHeadings rest
    else c :: dropOrphanedHeadings rest

mutual

/-- prune.js `postClean` (step 4): combobox/listbox trimming plus orphaned
sub-heading removal. -/
def postClean (n : AXNode) (isBrowse : Bool) : Option AXNode :=
  match n with
  | .mk i b r nm p g cs =>
    if r = "combobox" ∨ r = "listbox" then
      let sel := cs.find? (fun c => c.props.selected)
      let nm2 := match sel with
        | some c => if c.name ≠ "" then c.name else nm
        | none => nm
      some (.mk i b r nm2 p g [])
    else
      let cs2 := postCleanList cs isBrowse
      let cs3 := if ¬isBrowse then dropOrphanedHeadings cs2 else cs2
      some (.mk i b r nm p g cs3)

def postCleanList (cs : List AXNode) (isBrowse : Bool) : List AXNode :=
  match cs with
  | [] => []
  | c :: rest =>
    match postClean c isBrowse with
    | some c2 => c2 :: postCleanList rest isBrowse
    | none => postCleanList rest isBrowse

end

mutual

/-- prune.js `dedupLinksIn`; the JS shared `Map` is threaded explicitly.
Inside a list-item a fresh local map is used and discarded. -/
def dedupLinksIn : AXNode → List String → Option AXNode × List String
  | .mk i b r nm p g cs, seen =>
    if r = "link" ∧ nm ≠ "" ∧ seen.contains nm then (none, seen)
    else
      let seen1 := if r = "link" ∧ nm ≠ "" then seen ++ [nm] else seen
      if r = "listitem" then
        (if ¬((dedupLinksList cs []).1).isEmpty then
          some (.mk i b r nm p g (dedupLinksList cs []).1) else none, seen1)
      else
        (some (.mk i b r nm p g (dedupLinksList cs seen1).1),
         (dedupLinksList cs seen1).2)

def dedupLinksList : List AXNode → List String → List AXNode × List String
  | [], seen => ([], seen)
  | c :: rest, seen =>
    let tail := dedupLinksList rest (dedupLinksIn c seen).2
    (match (dedupLinksIn c seen).1 with
     | some c2 => c2 :: tail.1
     | none => tail.1, tail.2)

end

/-- prune.js `dedupLinks` (step 5). -/
def dedupLinks (nodes : List AXNode) : List AXNode :=
  (dedupLinksList nodes []).1

mutual

/-- prune.js `dropNoiseButtons` (step 6). -/
def dropNoiseButtons (n : AXNode) : Option AXNode :=
  match n with
  | .mk i b r nm p g cs =>
    if r = "button" ∧ nm ≠ "" ∧ NOISE_BUTTONS nm then none
    else if r = "link" ∧ nm ≠ "" ∧ (NOISE_LINKS nm ∨ FOOTER_LINKS nm) then
      none
    else some (.mk i b r nm p g (dropNoiseButtonsList cs))

def dropNoiseButtonsList (cs : List AXNode) : List AXNode :=
  match cs with
  | [] => []
  | c :: rest =>
    match dropNoiseButtons c with
    | some c2 => c2 :: dropNoiseButtonsList rest
    | none => dropNoiseButtonsList rest

end

/-- prune.js `isFooterMarker`. -/
def isFooterMarker (n : AXNode) : Bool :=
  (n.role = "button" && n.name ≠ "" && backToTopPat n.name) ||
  (n.role = "heading" && n.props.level = some 6) ||
  (n.role = "heading" && n.name ≠ "" && relatedSearchPat n.name)

/-- prune.js `isSkippable`. -/
def isSkippable (n : AXNode) : Bool :=
  n.role = "dialog" && n.name ≠ "" && filterWordPat n.name

mutual

/-- prune.js `truncateAfterFooter` (step 7): cut the sibling list at the
first footer marker, recursing into children. -/
def truncateAfterFooter : List AXNode → List AXNode
  | [] => []
  | .mk i b r nm p g cs :: rest =>
    if isFooterMarker (.mk i b r nm p g cs) then []
    else if isSkippable (.mk i b r nm p g cs) then truncateAfterFooter rest
    else if ¬cs.isEmpty then
      let cs2 := truncChildren (.mk i b r nm p g cs)
      if cs2.isEmpty ∧ STRUCTURAL.contains r then
        truncateAfterFooter rest
      else AXNode.mk i b r nm p g cs2 :: truncateAfterFooter rest
    else AXNode.mk i b r nm p g cs :: truncateAfterFooter rest

def truncChildren : AXNode → List AXNode
  | .mk _ _ _ _ _ _ cs => truncateAfterFooter cs

end

mutual

/-- prune.js `dropFilterGroups` (step 8). -/
def dropFilterGroups (n : AXNode) : Option AXNode :=
  match n with
  | .mk i b r nm p g cs =>
    if r = "group" ∧ nm ≠ "" ∧ FILTER_GROUP (extractText (.mk i b r nm p g cs)) then
      none
    else
      let cs2 := dropFilterGroupsList cs
      if STRUCTURAL.contains r ∧ nm = "" ∧ cs2.isEmpty then none
      else some (.mk i b r nm p g cs2)

def dropFilterGroupsList (cs : List AXNode) : List AXNode :=
  match cs with
  | [] => []
  | c :: rest =>
    match dropFilterGroups c with
    | some c2 => c2 :: dropFilterGroupsList rest
    | none => dropFilterGroupsList rest

end

theorem dropWhile_length_le (q : Char → Bool) :
    ∀ l : List Char, (l.dropWhile q).length ≤ l.length := by
  intro l
  induction l with
  | nil => simp
  | cons c rest ih =>
    by_cases h : q c
    · simpa [List.dropWhile, h] using Nat.le_succ_of_le ih
    · simp [List.dropWhile, h]

/-- `context.toLowerCase().split(/\s+/)`: maximal non-whitespace runs. -/
def wordsByWs : List Char → List String
  | [] => []
  | c :: rest =>
    if isWsChar c then wordsByWs rest
    else
      String.mk (c :: rest.takeWhile (fun d => !isWsChar d)) ::
        wordsByWs (rest.dropWhile (fun d => !isWsChar d))
termination_by cs => cs.length
decreasing_by
  · simp
  · exact Nat.lt_succ_of_le (dropWhile_length_le _ rest)

/-- prune.js `prune`: keyword extraction from the context string. -/
def pruneKeywords (context : String) : List String :=
  if context ≠ "" then
    (wordsByWs (lowerStr context).data).filter (fun w => w.length > 1)
  else []

/-- prune.js `prune`, steps 1-6: region extraction, recursive prune,
wrapper collapse and post-clean. -/
def pruneStage4 (tree : Option AXNode) (mode context : String) :
    List AXNode :=
  (((extractRegions (match tree with | some t => [t] | none => [])
      (modeRegions mode)).filterMap
        (fun n => pruneNode n ⟨mode, "", pruneKeywords context⟩)).filterMap
      collapse).filterMap (fun n => postClean n (mode = "browse"))

/-- prune.js `prune`, all list-level stages: steps 7-10 (link dedup, noise
buttons, footer truncation, filter groups) run only outside browse mode. -/
def pruneStages (tree : Option AXNode) (mode context : String) :
    List AXNode :=
  if ¬mode = "browse" then
    (truncateAfterFooter ((dedupLinks
      (pruneStage4 tree mode context)).filterMap
        dropNoiseButtons)).filterMap dropFilterGroups
  else pruneStage4 tree mode context

/-- prune.js `prune`, the whole pipeline. -/
def prune (tree : Option AXNode) (mode : String) (context : String) :
    Option AXNode :=
  match pruneStages tree mode context with
  | [] => none
  | [n] => some n
  | ns => some (.mk "" 0 "root" "" {} false ns)

/-! ## Tree construction (src/index.js `buildTree`, `ariaTree`)

`buildTree` creates one tree node per raw record (later records with the
same identifier overwrite earlier ones, like `Map.set`), then links each
record to its parent by `parentId` only, guarded by a `linked` set, taking
the first parentless record as the root.  The link pass is embedded as an
explicit fold producing the ordered parent/child pairs, the `linked` set
and the root; the nested tree is then materialised from those pairs with
a recursion budget of one per record, which bounds every root-reachable
path (each identifier is linked at most once, so such paths cannot
repeat identifiers). -/

def batchIds (batch : List RawNode) : List String :=
  batch.map (fun n => n.nodeId)

/-- `nodeMap.get(id)` after the first pass: the last record wins. -/
def nodeContent (batch : List RawNode) (id : String) : Option RawNode :=
  batch.reverse.find? (fun n => n.nodeId = id)

/-- One iteration of the second pass of `buildTree` over the accumulator
(pairs pushed so far, `linked` set, root). -/
def linkStep (ids : List String) (n : RawNode)
    (acc : List (String × String) × List String × Option String) :
    List (String × String) × List String × Option String :=
  let (ps, ln, rt) := acc
  if n.parentId ≠ "" then
    if ¬ln.contains n.nodeId ∧ ids.contains n.parentId then
      (ps ++ [(n.parentId, n.nodeId)], ln ++ [n.nodeId], rt)
    else (ps, ln, rt)
  else if rt.isNone then (ps, ln, some n.nodeId)
  else (ps, ln, rt)

/-- The second pass of `buildTree`: accumulate (parent, child) pairs, the
`linked` set and the root identifier, in batch order. -/
def linkPass (ids : List String) :
    List RawNode → List (String × String) × List String × Option String →
    List (String × String) × List String × Option String
  | [], acc => acc
  | n :: rest, acc => linkPass ids rest (linkStep ids n acc)

def linkResult (batch : List RawNode) :
    List (String × String) × List String × Option String :=
  linkPass (batchIds batch) batch ([], [], none)

def linkPairs (batch : List RawNode) : List (String × String) :=
  (linkResult batch).1

def linkedIds (batch : List RawNode) : List String :=
  (linkResult batch).2.1

def rootIdOf (batch : List RawNode) : Option String :=
  (linkResult batch).2.2

/-- The ordered children of one node, as pushed by the link pass. -/
def childIdsOf (batch : List RawNode) (id : String) : List String :=
  ((linkPairs batch).filter (fun pr => pr.1 = id)).map (fun pr => pr.2)

/-- Materialise the nested tree below `id`. -/
def buildNode (batch : List RawNode) : Nat → String → Option AXNode
  | 0, _ => none
  | fuel + 1, id =>
    match nodeContent batch id with
    | none => none
    | some rcd =>
      some (.mk rcd.nodeId rcd.backendDOMNodeId rcd.role rcd.name rcd.props
        rcd.ignored ((childIdsOf batch id).filterMap (buildNode batch fuel)))

/-- src/index.js `buildTree`. -/
def buildTree (batch : List RawNode) : Option AXNode :=
  match rootIdOf batch with
  | none => none
  | some rid => buildNode batch batch.length rid

/-- The reference map `ariaTree` builds: `nodeId → backendDOMNodeId` for
every raw record with a truthy back-identifier. -/
def refMapOf (batch : List RawNode) : List (String × Nat) :=
  batch.filterMap (fun n =>
    if n.backendDOMNodeId ≠ 0 then some (n.nodeId, n.backendDOMNodeId)
    else none)

def refMapKeys (batch : List RawNode) : List String :=
  (refMapOf batch).map (fun pr => pr.1)

/-- `refMap.get(ref)` with JS truthiness folded in: `0` stands for both an
absent key and a falsy value (`ariaTree` never stores `0`). -/
def refGet (m : List (String × Nat)) (ref : String) : Nat :=
  match m.reverse.find? (fun pr => pr.1 = ref) with
  | some pr => pr.2
  | none => 0

/-! ## Statistics line and snapshot document (src/index.js) -/

def digCh : Nat → Char
  | 0 => '0' | 1 => '1' | 2 => '2' | 3 => '3' | 4 => '4'
  | 5 => '5' | 6 => '6' | 7 => '7' | 8 => '8' | 9 => '9'
  | _ => '0'

/-- Decimal digits of `n`, most significant first; the fuel only serves
structural recursion and `natDigits` supplies enough of it. -/
def natDigitsF : Nat → Nat → List Char
  | 0, _ => []
  | fuel + 1, n =>
    if n < 10 then [digCh n]
    else natDigitsF fuel (n / 10) ++ [digCh (n % 10)]

def natDigits (n : Nat) : List Char :=
  natDigitsF (n + 1) n

/-- Insert a thousands separator every three digits of a reversed digit
list. -/
def group3 : List Char → List Char
  | [] => []
  | [a] => [a]
  | [a, b] => [a, b]
  | [a, b, c] => [a, b, c]
  | a :: b :: c :: d :: rest => a :: b :: c :: ',' :: group3 (d :: rest)

/-- `Number.prototype.toLocaleString()` with comma grouping. -/
def groupDigits (n : Nat) : String :=
  String.mk (group3 (natDigits n).reverse).reverse

def intStr (i : Int) : String :=
  if i < 0 then "-" ++ String.mk (natDigits i.natAbs)
  else String.mk (natDigits i.toNat)

/-- `Math.round((1 - out/raw) * 100)` for `raw ≠ 0`: round half towards
positive infinity. -/
def pctRound (rawLen outLen : Nat) : Int :=
  Int.fdiv (2 * (((rawLen : Int) - outLen) * 100) + rawLen) (2 * rawLen)

def pctString (rawLen outLen : Nat) : String :=
  if rawLen = 0 then "NaN" else intStr (pctRound rawLen outLen)

/-- The statistics prefix line built by `browse` and `snapshot`. -/
def statsLine (rawLen outLen : Nat) : String :=
  "# " ++ groupDigits rawLen ++ " chars → " ++ groupDigits outLen ++
    " chars (" ++ pctString rawLen outLen ++ "% pruned)"

/-- `connect().snapshot({mode})` with pruning enabled, from the raw batch
to the returned document. -/
def snapshotDoc (batch : List RawNode) (mode : String) : String :=
  let tree := buildTree batch
  let raw := formatTreeOpt tree
  let pruned := prune tree mode ""
  let out := formatTreeOpt pruned
  statsLine raw.length out.length ++ "\n" ++ out

/-! ## Challenge detection (src/index.js) -/

mutual

/-- src/index.js `flattenTreeText`. -/
def flattenTreeText (n : AXNode) : String :=
  match n with
  | .mk _ _ _ nm _ _ cs => nm ++ flattenTreeTextList cs

def flattenTreeTextList (cs : List AXNode) : String :=
  match cs with
  | [] => ""
  | c :: rest => " " ++ flattenTreeText c ++ flattenTreeTextList rest

end

def challengePhrases : List String :=
  ["just a moment",
   "checking if the site connection is secure",
   "checking your browser",
   "please wait",
   "verify you are human",
   "attention required"]

/-- src/index.js `isChallengePage`. -/
def isChallengePage (tree : Option AXNode) : Bool :=
  match tree with
  | none => true
  | some t =>
    challengePhrases.any (fun p =>
      kwIncludes (lowerStr (flattenTreeText t)) p)

/-! ## Input dispatch (src/interact.js) -/

structure KeyDef : Type where
  key : String
  code : String
  keyCode : Nat
  text : Option String := none
deriving Repr, DecidableEq

/-- src/interact.js KEY_MAP. -/
def KEY_MAP : List (String × KeyDef) :=
  [("Enter", ⟨"Enter", "Enter", 13, some "\r"⟩),
   ("Tab", ⟨"Tab", "Tab", 9, some "\t"⟩),
   ("Escape", ⟨"Escape", "Escape", 27, none⟩),
   ("Backspace", ⟨"Backspace", "Backspace", 8, none⟩),
   ("Delete", ⟨"Delete", "Delete", 46, none⟩),
   ("ArrowUp", ⟨"ArrowUp", "ArrowUp", 38, none⟩),
   ("ArrowDown", ⟨"ArrowDown", "ArrowDown", 40, none⟩),
   ("ArrowLeft", ⟨"ArrowLeft", "ArrowLeft", 37, none⟩),
   ("ArrowRight", ⟨"ArrowRight", "ArrowRight", 39, none⟩),
   ("Home", ⟨"Home", "Home", 36, none⟩),
   ("End", ⟨"End", "End", 35, none⟩),
   ("PageUp", ⟨"PageUp", "PageUp", 33, none⟩),
   ("PageDown", ⟨"PageDown", "PageDown", 34, none⟩),
   ("Space", ⟨" ", "Space", 32, none⟩)]

def keyNames : List String := KEY_MAP.map (fun pr => pr.1)

/-- The member names every plain object literal inherits from
`Object.prototype`; a bracket lookup on `KEY_MAP` finds a truthy value
at each of them. -/
def objectProtoKeys : List String :=
  ["constructor", "hasOwnProperty", "isPrototypeOf",
   "propertyIsEnumerable", "toLocaleString", "toString", "valueOf",
   "__defineGetter__", "__defineSetter__", "__lookupGetter__",
   "__lookupSetter__", "__proto__"]

/-- One dispatched CDP command, as far as the interaction layer shapes
it.  Coordinates are exact rationals standing for the JS numbers. -/
inductive Cmd : Type where
  | scrollIntoView (backendNodeId : Nat)
  | getBoxModel (backendNodeId : Nat)
  | mouseEvent (type : String) (x y : Rat)
  | mouseWheel (x y deltaY : Rat)
  | focus (backendNodeId : Nat)
  | keyEvent (type : String) (key : String) (code : String)
      (windowsVirtualKeyCode : Nat) (modifiers : Nat) (text : Option String)
  | keyEventBare (type : String)
  | keyChar (type : String) (text : String)
  | insertText (text : String)
  | resolveNode (backendNodeId : Nat)
  | callFn (descr : String)
  | evalJs (descr : String)
  | setFileInputFiles (files : List String) (backendNodeId : Nat)
deriving Repr, DecidableEq

instance {ε α : Type} [DecidableEq ε] [DecidableEq α] :
    DecidableEq (Except ε α)
  | .error e, .error e' =>
    decidable_of_iff (e = e') ⟨fun h => h ▸ rfl, fun h => by cases h; rfl⟩
  | .error _, .ok _ => isFalse (by intro h; cases h)
  | .ok _, .error _ => isFalse (by intro h; cases h)
  | .ok a, .ok a' =>
    decidable_of_iff (a = a') ⟨fun h => h ▸ rfl, fun h => by cases h; rfl⟩

/-- The box-model oracle: the content-quad corners (x1, y1, x3, y3)
`DOM.getBoxModel` reports for a backend node id. -/
def Quad : Type := Nat → Rat × Rat × Rat × Rat

/-- interact.js `getCenter`: the commands it sends and the midpoint it
computes. -/
def getCenter (box : Quad) (b : Nat) : List Cmd × Rat × Rat :=
  let q := box b
  ([.scrollIntoView b, .getBoxModel b],
   (q.1 + q.2.2.1) / 2, (q.2.1 + q.2.2.2) / 2)

/-- interact.js `click`. -/
def clickCmds (box : Quad) (b : Nat) : List Cmd :=
  let c := getCenter box b
  c.1 ++ [.mouseEvent "mousePressed" c.2.1 c.2.2,
          .mouseEvent "mouseReleased" c.2.1 c.2.2]

/-- interact.js `hover`. -/
def hoverCmds (box : Quad) (b : Nat) : List Cmd :=
  let c := getCenter box b
  c.1 ++ [.mouseEvent "mouseMoved" c.2.1 c.2.2]

/-- interact.js `type`. -/
def typeCmds (b : Nat) (text : String) (clear keyEvents : Bool) :
    List Cmd :=
  [Cmd.focus b] ++
  (if clear then
    [Cmd.keyEvent "keyDown" "a" "KeyA" 65 2 none,
     Cmd.keyEvent "keyUp" "a" "KeyA" 65 2 none,
     Cmd.keyEvent "keyDown" "Backspace" "Backspace" 8 0 none,
     Cmd.keyEvent "keyUp" "Backspace" "Backspace" 8 0 none]
  else []) ++
  (if keyEvents then
    text.data.flatMap (fun c =>
      [Cmd.keyChar "keyDown" (String.mk [c]),
       Cmd.keyChar "keyUp" (String.mk [c])])
  else [Cmd.insertText text])

/-- interact.js `press`.  `KEY_MAP[key]` is a plain-object bracket
lookup: an own entry yields its table row and the keyDown/keyUp pair
carries it; the name of an `Object.prototype` member (`toString`,
`constructor`, `__proto__`, …) finds the truthy inherited value, so the
`!def` guard does not fire and the `key`/`code`/`keyCode`/`text` reads on
that value are all `undefined` — the dispatched pair carries only its
type once serialised.  Every other name fails with UnknownKey. -/
def press (key : String) : Except String (List Cmd) :=
  match KEY_MAP.find? (fun pr => pr.1 = key) with
  | none =>
    if objectProtoKeys.contains key then
      .ok [.keyEventBare "keyDown", .keyEventBare "keyUp"]
    else
      .error ("Unknown key: \"" ++ key ++ "\". Valid keys: " ++
        String.intercalate ", " keyNames)
  | some pr =>
    let d := pr.2
    let txt := match d.text with
      | some t => if t ≠ "" then some t else none
      | none => none
    .ok [.keyEvent "keyDown" d.key d.code d.keyCode 0 txt,
         .keyEvent "keyUp" d.key d.code d.keyCode 0 txt]

/-- interact.js `select`: the native-SELECT branch sets the value via
script; the custom branch clicks and searches options. -/
def selectCmds (box : Quad) (tagOf : Nat → String) (b : Nat)
    (value : String) : List Cmd :=
  [Cmd.resolveNode b, Cmd.callFn "tagName"] ++
  (if tagOf b = "SELECT" then [Cmd.callFn ("setSelectValue " ++ value)]
   else clickCmds box b ++ [Cmd.evalJs ("clickOption " ++ value)])

/-- interact.js `drag`. -/
def dragCmds (box : Quad) (f t : Nat) : List Cmd :=
  let cf := getCenter box f
  let ct := getCenter box t
  cf.1 ++ ct.1 ++
  [.mouseEvent "mousePressed" cf.2.1 cf.2.2,
   .mouseEvent "mouseMoved" ((cf.2.1 + ct.2.1) / 2) ((cf.2.2 + ct.2.2) / 2),
   .mouseEvent "mouseMoved" ct.2.1 ct.2.2,
   .mouseEvent "mouseReleased" ct.2.1 ct.2.2]

/-- interact.js `upload`. -/
def uploadCmds (files : List String) (b : Nat) : List Cmd :=
  [Cmd.setFileInputFiles files b]

/-! ## Reference-based page-handle operations (src/index.js `connect`)

Each operation resolves the reference against the current reference map
first and throws before dispatching anything when the lookup is falsy;
the command list of the success branch is parameterised by the mapped
backend node id. -/

def errNoElement (ref : String) : String :=
  "No element found for ref \"" ++ ref ++ "\""

def handleClick (m : List (String × Nat)) (box : Quad) (ref : String) :
    Except String (List Cmd) :=
  let b := refGet m ref
  if b = 0 then .error (errNoElement ref) else .ok (clickCmds box b)

def handleType (m : List (String × Nat)) (ref text : String)
    (clear keyEvents : Bool) : Except String (List Cmd) :=
  let b := refGet m ref
  if b = 0 then .error (errNoElement ref)
  else .ok (typeCmds b text clear keyEvents)

def handleHover (m : List (String × Nat)) (box : Quad) (ref : String) :
    Except String (List Cmd) :=
  let b := refGet m ref
  if b = 0 then .error (errNoElement ref) else .ok (hoverCmds box b)

def handleSelect (m : List (String × Nat)) (box : Quad)
    (tagOf : Nat → String) (ref value : String) :
    Except String (List Cmd) :=
  let b := refGet m ref
  if b = 0 then .error (errNoElement ref)
  else .ok (selectCmds box tagOf b value)

def handleDrag (m : List (String × Nat)) (box : Quad)
    (fromRef toRef : String) : Except String (List Cmd) :=
  let f := refGet m fromRef
  let t := refGet m toRef
  if f = 0 then .error (errNoElement fromRef)
  else if t = 0 then .error (errNoElement toRef)
  else .ok (dragCmds box f t)

def handleUpload (m : List (String × Nat)) (ref : String)
    (files : List String) : Except String (List Cmd) :=
  let b := refGet m ref
  if b = 0 then .error (errNoElement ref) else .ok (uploadCmds files b)

/-- How many times an identifier was linked as a child by `buildTree`'s
second pass. -/
def linkCount (batch : List RawNode) (id : String) : Nat :=
  ((linkPairs batch).map (fun pr => pr.2)).count id

mutual

/-- All node identifiers of a built tree. -/
def treeIds (n : AXNode) : List String :=
  match n with
  | .mk i _ _ _ _ _ cs => i :: treeIdsList cs

def treeIdsList (cs : List AXNode) : List String :=
  match cs with
  | [] => []
  | c :: rest => treeIds c ++ treeIdsList rest

end

def treeIdsOpt (t : Option AXNode) : List String :=
  match t with
  | none => []
  | some n => treeIds n

def c2batchCE : List RawNode :=
  [⟨"1", "", 0, "RootWebArea", "", {}, false⟩,
   ⟨"2", "99", 0, "button", "x", {}, false⟩]

def c2batchW : List RawNode :=
  [⟨"1", "", 0, "RootWebArea", "", {}, false⟩,
   ⟨"2", "1", 0, "main", "", {}, false⟩,
   ⟨"3", "1", 0, "button", "x", {}, false⟩]

def c10batchW : List RawNode :=
  [⟨"1", "", 1, "RootWebArea", "", {}, false⟩,
   ⟨"2", "", 2, "main", "", {}, false⟩,
   ⟨"3", "9", 3, "button", "x", {}, false⟩]

/-- A constant box-model oracle used by concrete instantiations. -/
def boxZero : Quad := fun _ => (0, 0, 0, 0)

/-- A one-record batch fixture: node "1" with back-identifier 5. -/
def refFixture : List RawNode := [⟨"1", "", 5, "button", "x", {}, false⟩]

/-- An unnamed generic wrapper with two button children. -/
def c5wrapper : AXNode :=
  .mk "" 0 "generic" "" {} false
    [.mk "1" 0 "button" "A" {} false [],
     .mk "2" 0 "button" "B" {} false []]

/-- A main landmark holding a link, a level-2 sub-heading and a duplicate
link: the first act-mode run keeps the heading (an interactive sibling
still follows) but then deduplicates the second link, so the second run
drops the now-orphaned heading. -/
def c3tree : AXNode :=
  .mk "0" 0 "main" "" {} false
    [.mk "1" 0 "link" "A" {} false [],
     .mk "2" 0 "heading" "B" { level := some 2 } false [],
     .mk "3" 0 "link" "A" {} false []]

/-- `s` starts with `P`. -/
def strStartsWith (P s : String) : Prop :=
  ∃ rest : List Char, s.data = P.data ++ rest

/-- A batch whose only record has a truthy `nodeId` but no DOM
back-identifier: the formatter still emits `[ref=1]` for it, yet
`ariaTree` stores nothing in the reference map. -/
def c1batch : List RawNode := [⟨"1", "", 0, "button", "x", {}, false⟩]

/-- A two-record batch whose records both carry DOM back-identifiers. -/
def c1wbatch : List RawNode :=
  [⟨"1", "", 7, "RootWebArea", "", {}, false⟩,
   ⟨"2", "1", 9, "button", "go", {}, false⟩]

/-- A page whose main landmark holds two links with the same accessible
name: link deduplication keeps only the first in act mode. -/
def c4dupTree : AXNode :=
  .mk "r" 0 "RootWebArea" "" {} false
    [.mk "m" 0 "main" "" {} false
      [.mk "1" 5 "link" "A" {} false [],
       .mk "2" 6 "link" "A" {} false []]]

/-- A page whose main landmark holds a single interactive element with a
vocabulary-neutral name. -/
def c4tree (mid cid : String) (mb cb : Nat) (r : String) : AXNode :=
  .mk "r" 0 "RootWebArea" "" {} false
    [.mk mid mb "main" "" {} false
      [.mk cid cb r "Zq" {} false []]]

/-! ## The documented form of the statistics line

The spec describes the first line of a snapshot document as
`# <raw> chars → <pruned> chars (NN% pruned)`.  The following parser is a
formalisation of that description (not of the code): it accepts exactly
the strings of this shape — a `# ` prefix, a separator-grouped decimal
count, the literal ` chars → `, a second grouped count, the literal
` chars (`, an optionally signed decimal percentage and the literal
`% pruned)` — and returns the two character counts it read. -/

def firstLineOf (s : String) : String :=
  String.mk (s.data.takeWhile (fun c => c ≠ '\n'))

def bodyOf (s : String) : String :=
  String.mk ((s.data.dropWhile (fun c => c ≠ '\n')).drop 1)

def digitVal (c : Char) : Nat := c.toNat - 48

def digitsVal (l : List Char) : Nat :=
  l.foldl (fun a c => 10 * a + digitVal c) 0

def isGroupChar (c : Char) : Bool := c.isDigit || c = ','

def stripPrefixL : List Char → List Char → Option (List Char)
  | [], cs => some cs
  | _ :: _, [] => none
  | p :: ps, c :: cs => if c = p then stripPrefixL ps cs else none

def parseGrouped (cs : List Char) : Option (Nat × List Char) :=
  if ((cs.takeWhile isGroupChar).filter Char.isDigit).isEmpty then none
  else some (digitsVal ((cs.takeWhile isGroupChar).filter Char.isDigit),
    cs.dropWhile isGroupChar)

def parsePct (cs : List Char) : Bool :=
  (!((if cs.head? = some '-' then cs.tail else cs).takeWhile
      Char.isDigit).isEmpty) &&
  decide ((if cs.head? = some '-' then cs.tail else cs).dropWhile
      Char.isDigit = "% pruned)".data)

def parseStatsLine (s : String) : Option (Nat × Nat) :=
  (stripPrefixL "# ".data s.data).bind (fun r1 =>
    (parseGrouped r1).bind (fun pr1 =>
      (stripPrefixL " chars → ".data pr1.2).bind (fun r3 =>
        (parseGrouped r3).bind (fun pr2 =>
          (stripPrefixL " chars (".data pr2.2).bind (fun r5 =>
            if parsePct r5 then some (pr1.1, pr2.1) else none)))))

/-- A two-record batch producing a nonempty snapshot document. -/
def c7batch : List RawNode :=
  [⟨"1", "", 7, "RootWebArea", "", {}, false⟩,
   ⟨"2", "1", 9, "button", "go", {}, false⟩]

/-! ## Theorems -/


theorem linkStep_snd_eq (ids : List String) (n : RawNode)
    (acc : List (String × String) × List String × Option String)
    (h : acc.1.map Prod.snd = acc.2.1) :
    ((linkStep ids n acc).1.map Prod.snd = (linkStep ids n acc).2.1) := by
  obtain ⟨ps, ln, rt⟩ := acc
  simp only [linkStep]
  split_ifs <;> simp_all

theorem linkPass_snd_eq (ids : List String) :
    ∀ (l : List RawNode)
      (acc : List (String × String) × List String × Option String),
      acc.1.map Prod.snd = acc.2.1 →
      (linkPass ids l acc).1.map Prod.snd = (linkPass ids l acc).2.1
  | [], _, h => h
  | n :: rest, acc, h =>
    linkPass_snd_eq ids rest (linkStep ids n acc) (linkStep_snd_eq ids n acc h)

theorem linkStep_linked_nodup (ids : List String) (n : RawNode)
    (acc : List (String × String) × List String × Option String)
    (h : acc.2.1.Nodup) : ((linkStep ids n acc).2.1).Nodup := by
  obtain ⟨ps, ln, rt⟩ := acc
  simp only [linkStep]
  split_ifs with h1 h2 h3 <;> simp_all [List.nodup_append]

theorem linkPass_linked_nodup (ids : List String) :
    ∀ (l : List RawNode)
      (acc : List (String × String) × List String × Option String),
      acc.2.1.Nodup → ((linkPass ids l acc).2.1).Nodup
  | [], _, h => h
  | n :: rest, acc, h =>
    linkPass_linked_nodup ids rest (linkStep ids n acc)
      (linkStep_linked_nodup ids n acc h)

theorem linkStep_linked_mono (ids : List String) (n : RawNode)
    (acc : List (String × String) × List String × Option String)
    {x : String} (h : x ∈ acc.2.1) : x ∈ (linkStep ids n acc).2.1 := by
  obtain ⟨ps, ln, rt⟩ := acc
  simp only [linkStep]
  split_ifs <;> simp_all

theorem linkPass_linked_mono (ids : List String) :
    ∀ (l : List RawNode)
      (acc : List (String × String) × List String × Option String)
      {x : String}, x ∈ acc.2.1 → x ∈ (linkPass ids l acc).2.1
  | [], _, _, h => h
  | n :: rest, acc, _, h =>
    linkPass_linked_mono ids rest (linkStep ids n acc)
      (linkStep_linked_mono ids n acc h)

theorem linkPass_linked_sound (ids : List String) :
    ∀ (l : List RawNode)
      (acc : List (String × String) × List String × Option String)
      {x : String}, x ∈ (linkPass ids l acc).2.1 →
      x ∈ acc.2.1 ∨ ∃ n ∈ l, n.nodeId = x ∧ n.parentId ≠ "" ∧
        ids.contains n.parentId
  | [], _, _, h => Or.inl h
  | n :: rest, acc, x, h => by
    rcases linkPass_linked_sound ids rest (linkStep ids n acc) h with
      hstep | ⟨m, hm, hx, hp, hc⟩
    · obtain ⟨ps, ln, rt⟩ := acc
      simp only [linkStep] at hstep
      split_ifs at hstep with h1 h2 h3
      · rcases List.mem_append.mp hstep with hln | hnew
        · exact Or.inl hln
        · refine Or.inr ⟨n, List.mem_cons_self .., ?_, h1, h2.2⟩
          have hx2 : x = n.nodeId := by simpa using hnew
          exact hx2.symm
      · exact Or.inl hstep
      · exact Or.inl hstep
      · exact Or.inl hstep
    · exact Or.inr ⟨m, List.mem_cons_of_mem _ hm, hx, hp, hc⟩

theorem linkStep_linked_self (ids : List String) (n : RawNode)
    (acc : List (String × String) × List String × Option String)
    (hp : n.parentId ≠ "") (hc : ids.contains n.parentId) :
    n.nodeId ∈ (linkStep ids n acc).2.1 := by
  obtain ⟨ps, ln, rt⟩ := acc
  by_cases hln : n.nodeId ∈ ln <;>
    (simp only [linkStep]; split_ifs <;> simp_all)

theorem linkPass_linked_complete (ids : List String) :
    ∀ (l : List RawNode)
      (acc : List (String × String) × List String × Option String)
      {n : RawNode}, n ∈ l → n.parentId ≠ "" → ids.contains n.parentId →
      n.nodeId ∈ (linkPass ids l acc).2.1 := by
  intro l
  induction l with
  | nil => intro _ _ h; cases h
  | cons m rest ih =>
    intro acc n hmem hp hc
    rcases List.mem_cons.mp hmem with rfl | htail
    · exact linkPass_linked_mono ids rest _
        (linkStep_linked_self ids n acc hp hc)
    · exact ih (linkStep ids m acc) htail hp hc

theorem linkPass_root_some (ids : List String) :
    ∀ (l : List RawNode)
      (acc : List (String × String) × List String × Option String)
      {x : String}, acc.2.2 = some x → (linkPass ids l acc).2.2 = some x
  | [], _, _, h => h
  | n :: rest, acc, x, h => by
    apply linkPass_root_some ids rest (linkStep ids n acc)
    obtain ⟨ps, ln, rt⟩ := acc
    simp only [linkStep]
    split_ifs <;> simp_all

theorem linkPass_root_of_none (ids : List String) :
    ∀ (l : List RawNode)
      (acc : List (String × String) × List String × Option String),
      acc.2.2 = none →
      (linkPass ids l acc).2.2 =
        (l.find? (fun n => n.parentId = "")).map (fun n => n.nodeId) := by
  intro l
  induction l with
  | nil => intro acc h; simpa [linkPass] using h
  | cons n rest ih =>
    intro acc h
    by_cases hp : n.parentId ≠ ""
    · have hstep : (linkStep ids n acc).2.2 = none := by
        obtain ⟨ps, ln, rt⟩ := acc
        simp only [linkStep]
        split_ifs <;> simp_all
      have hf : (List.find? (fun n => n.parentId = "") (n :: rest)) =
          List.find? (fun n => n.parentId = "") rest := by
        rw [List.find?_cons_of_neg]
        simpa using hp
      rw [show linkPass ids (n :: rest) acc =
        linkPass ids rest (linkStep ids n acc) from rfl, hf]
      exact ih (linkStep ids n acc) hstep
    · have hpe : n.parentId = "" := by simpa using hp
      have hstep : (linkStep ids n acc).2.2 = some n.nodeId := by
        obtain ⟨ps, ln, rt⟩ := acc
        simp only [linkStep]
        rw [if_neg hp, if_pos (by simp_all)]
      have hf : (List.find? (fun n => n.parentId = "") (n :: rest)) =
          some n := List.find?_cons_of_pos _ (by simpa using hpe)
      rw [show linkPass ids (n :: rest) acc =
        linkPass ids rest (linkStep ids n acc) from rfl, hf]
      simpa using linkPass_root_some ids rest (linkStep ids n acc) hstep

theorem rootIdOf_eq_first_parentless (batch : List RawNode) :
    rootIdOf batch =
      (batch.find? (fun n => n.parentId = "")).map (fun n => n.nodeId) :=
  linkPass_root_of_none (batchIds batch) batch ([], [], none) rfl

theorem linkedIds_eq_snd_pairs (batch : List RawNode) :
    (linkPairs batch).map Prod.snd = linkedIds batch :=
  linkPass_snd_eq (batchIds batch) batch ([], [], none) rfl

theorem linkedIds_nodup (batch : List RawNode) : (linkedIds batch).Nodup :=
  linkPass_linked_nodup (batchIds batch) batch ([], [], none) List.nodup_nil

theorem linkCount_eq_count_linked (batch : List RawNode) (id : String) :
    linkCount batch id = (linkedIds batch).count id := by
  unfold linkCount
  rw [show (linkPairs batch).map (fun pr => pr.2) =
    (linkPairs batch).map Prod.snd from rfl, linkedIds_eq_snd_pairs]

theorem mem_linked_of_parent_in_batch {batch : List RawNode}
    {n : RawNode} (hmem : n ∈ batch) (hp : n.parentId ≠ "")
    (hc : (batchIds batch).contains n.parentId) :
    n.nodeId ∈ linkedIds batch :=
  linkPass_linked_complete (batchIds batch) batch ([], [], none) hmem hp hc

theorem mem_linked_sound {batch : List RawNode} {x : String}
    (h : x ∈ linkedIds batch) :
    ∃ n ∈ batch, n.nodeId = x ∧ n.parentId ≠ "" ∧
      (batchIds batch).contains n.parentId := by
  rcases linkPass_linked_sound (batchIds batch) batch ([], [], none) h with
    h0 | h1
  · cases h0
  · exact h1

theorem nodeId_inj {batch : List RawNode}
    (hnd : (batchIds batch).Nodup) :
    ∀ m ∈ batch, ∀ n ∈ batch, m.nodeId = n.nodeId → m = n := by
  intro m hm n hn h
  exact List.inj_on_of_nodup_map hnd hm hn h

theorem treeIdsList_mem :
    ∀ (cs : List AXNode) (x : String),
      x ∈ treeIdsList cs ↔ ∃ c ∈ cs, x ∈ treeIds c
  | [], x => by simp [treeIdsList]
  | c :: rest, x => by
    simp only [treeIdsList, List.mem_append, treeIdsList_mem rest x,
      List.mem_cons]
    constructor
    · rintro (h | ⟨d, hd, hx⟩)
      · exact ⟨c, Or.inl rfl, h⟩
      · exact ⟨d, Or.inr hd, hx⟩
    · rintro ⟨d, rfl | hd, hx⟩
      · exact Or.inl hx
      · exact Or.inr ⟨d, hd, hx⟩

theorem childIdsOf_sub_linked (batch : List RawNode) (id : String) :
    ∀ cid ∈ childIdsOf batch id, cid ∈ linkedIds batch := by
  intro cid h
  unfold childIdsOf at h
  rw [← linkedIds_eq_snd_pairs]
  simp only [List.mem_map, List.mem_filter] at h ⊢
  obtain ⟨pr, ⟨hpr, _⟩, hsnd⟩ := h
  exact ⟨pr, hpr, hsnd⟩

theorem nodeContent_nodeId {batch : List RawNode} {id : String}
    {rcd : RawNode} (h : nodeContent batch id = some rcd) :
    rcd.nodeId = id := by
  have := List.find?_some h
  simpa using this

theorem buildNode_ids (batch : List RawNode) :
    ∀ (fuel : Nat) (id : String) (t : AXNode),
      buildNode batch fuel id = some t →
      ∀ x ∈ treeIds t, x = id ∨ x ∈ linkedIds batch := by
  intro fuel
  induction fuel with
  | zero => intro id t h; cases h
  | succ fuel ih =>
    intro id t h x hx
    unfold buildNode at h
    cases hc : nodeContent batch id with
    | none => rw [hc] at h; cases h
    | some rcd =>
      rw [hc] at h
      have ht : t = .mk rcd.nodeId rcd.backendDOMNodeId rcd.role rcd.name
          rcd.props rcd.ignored
          ((childIdsOf batch id).filterMap (buildNode batch fuel)) := by
        cases h; rfl
      subst ht
      simp only [treeIds, List.mem_cons] at hx
      rcases hx with rfl | hx
      · exact Or.inl (nodeContent_nodeId hc)
      · obtain ⟨c, hcmem, hxc⟩ := (treeIdsList_mem _ x).mp hx
        obtain ⟨cid, hcid, hbuild⟩ := List.mem_filterMap.mp hcmem
        rcases ih cid c hbuild x hxc with rfl | hlink
        · exact Or.inr (childIdsOf_sub_linked batch id x hcid)
        · exact Or.inr hlink

theorem find?_of_filter_singleton {α : Type} (p : α → Bool) :
    ∀ (l : List α) (w : α), l.filter p = [w] → l.find? p = some w := by
  intro l
  induction l with
  | nil => intro w h; simp at h
  | cons a rest ih =>
    intro w h
    by_cases hp : p a
    · rw [List.filter_cons_of_pos hp] at h
      obtain ⟨rfl, -⟩ : a = w ∧ rest.filter p = [] := by
        have := List.cons.injEq a (rest.filter p) w [] ▸ h
        constructor
        · exact (List.cons.inj h).1
        · exact (List.cons.inj h).2
      exact List.find?_cons_of_pos _ hp
    · rw [List.filter_cons_of_neg hp] at h
      rw [List.find?_cons_of_neg _ hp]
      exact ih w h


/-- Counterexample for C2: a batch with exactly one parentless node in
which node "2" names the absent parent "99"; `buildTree` silently links
node "2" to no parent at all, so not every non-root node of the batch is
linked as a child of exactly one parent. -/
theorem c2_counterexample :
    (c2batchCE.filter (fun n => n.parentId = "")).length = 1 ∧
    rootIdOf c2batchCE = some "1" ∧
    (∃ n ∈ c2batchCE, n.nodeId = "2" ∧ n.parentId ≠ "") ∧
    linkCount c2batchCE "2" = 0 := by
  refine ⟨by decide, by decide, ?_, by decide⟩
  exact ⟨⟨"2", "99", 0, "button", "x", {}, false⟩, by decide, rfl, by decide⟩

/-- Claim C2 (amended): for a batch with pairwise-distinct identifiers and
exactly one parentless node, that node is the unique root; every non-root
node whose parent identifier occurs in the batch is linked as a child of
exactly one parent; a node whose parent identifier is absent from the
batch is linked to no parent; and no node is ever linked as a child
twice. -/
theorem c2_tree_reconstruction (batch : List RawNode)
    (hnd : (batchIds batch).Nodup)
    (hone : (batch.filter (fun n => n.parentId = "")).length = 1) :
    (∃ u ∈ batch, u.parentId = "" ∧ rootIdOf batch = some u.nodeId ∧
      ∀ v ∈ batch, v.parentId = "" → v = u) ∧
    (∀ n ∈ batch, n.parentId ≠ "" →
      ((batchIds batch).contains n.parentId →
        linkCount batch n.nodeId = 1) ∧
      (¬(batchIds batch).contains n.parentId →
        linkCount batch n.nodeId = 0)) ∧
    (∀ id, linkCount batch id ≤ 1) := by
  refine ⟨?_, ?_, ?_⟩
  · obtain ⟨w, hw⟩ := List.length_eq_one.mp hone
    have hwmem : w ∈ batch.filter (fun n => n.parentId = "") := by
      rw [hw]; exact List.mem_singleton_self w
    rw [List.mem_filter] at hwmem
    have hfind : batch.find? (fun n => n.parentId = "") = some w :=
      find?_of_filter_singleton _ batch w hw
    refine ⟨w, hwmem.1, by simpa using hwmem.2, ?_, ?_⟩
    · rw [rootIdOf_eq_first_parentless, hfind]
      rfl
    · intro v hv hvp
      have hvf : v ∈ batch.filter (fun n => n.parentId = "") :=
        List.mem_filter.mpr ⟨hv, by simp [hvp]⟩
      rw [hw] at hvf
      simpa using hvf
  · intro n hn hp
    constructor
    · intro hc
      have hmem := mem_linked_of_parent_in_batch hn hp hc
      rw [linkCount_eq_count_linked]
      have h1 : (linkedIds batch).count n.nodeId ≤ 1 :=
        List.nodup_iff_count_le_one.mp (linkedIds_nodup batch) _
      have h2 : 0 < (linkedIds batch).count n.nodeId :=
        List.count_pos_iff.mpr hmem
      omega
    · intro hc
      rw [linkCount_eq_count_linked]
      apply List.count_eq_zero.mpr
      intro hmem
      obtain ⟨m, hm, hmid, _, hmc⟩ := mem_linked_sound hmem
      have heq := nodeId_inj hnd m hm n hn hmid
      subst heq
      exact hc hmc
  · intro id
    rw [linkCount_eq_count_linked]
    exact List.nodup_iff_count_le_one.mp (linkedIds_nodup batch) id


/-- Witness for C2 on a three-node batch with root "1" and two proper
children. -/
theorem c2_tree_reconstruction_witness :
    rootIdOf c2batchW = some "1" ∧ linkCount c2batchW "2" = 1 := by
  obtain ⟨⟨u, hu, hup, hroot, huniq⟩, h2, _⟩ :=
    c2_tree_reconstruction c2batchW (by decide) (by decide)
  constructor
  · have h := huniq ⟨"1", "", 0, "RootWebArea", "", {}, false⟩ (by decide) rfl
    rw [hroot, ← h]
  · exact (h2 ⟨"2", "1", 0, "main", "", {}, false⟩ (by decide)
      (by decide)).1 (by decide)

/-- Claim C10: with distinct identifiers, the root is the first parentless
node in batch order; every later parentless node, and every node whose
parent identifier does not occur in the batch, is excluded from the
returned tree; and any node with a DOM back-identifier still enters the
reference map. -/
theorem c10_first_parentless_root (batch : List RawNode)
    (hnd : (batchIds batch).Nodup) :
    (rootIdOf batch =
      (batch.find? (fun n => n.parentId = "")).map (fun n => n.nodeId)) ∧
    (∀ n ∈ batch, n.parentId = "" →
      ∀ m, batch.find? (fun k => k.parentId = "") = some m →
      m.nodeId ≠ n.nodeId →
      ∀ t, buildTree batch = some t → n.nodeId ∉ treeIds t) ∧
    (∀ n ∈ batch, n.parentId ≠ "" →
      ¬(batchIds batch).contains n.parentId →
      ∀ t, buildTree batch = some t → n.nodeId ∉ treeIds t) ∧
    (∀ n ∈ batch, n.backendDOMNodeId ≠ 0 →
      (n.nodeId, n.backendDOMNodeId) ∈ refMapOf batch) := by
  refine ⟨rootIdOf_eq_first_parentless batch, ?_, ?_, ?_⟩
  · intro n hn hp m hfind hne t ht hmem
    unfold buildTree at ht
    cases hr : rootIdOf batch with
    | none => rw [hr] at ht; cases ht
    | some rid =>
      rw [hr] at ht
      rcases buildNode_ids batch batch.length rid t ht _ hmem with
        heq | hlink
      · rw [rootIdOf_eq_first_parentless batch, hfind] at hr
        have : rid = m.nodeId := by
          simpa using hr.symm
        exact hne (this ▸ heq.symm)
      · obtain ⟨k, hk, hkid, hkp, _⟩ := mem_linked_sound hlink
        have heq := nodeId_inj hnd k hk n hn hkid
        subst heq
        exact hkp hp
  · intro n hn hp hc t ht hmem
    unfold buildTree at ht
    cases hr : rootIdOf batch with
    | none => rw [hr] at ht; cases ht
    | some rid =>
      rw [hr] at ht
      rcases buildNode_ids batch batch.length rid t ht _ hmem with
        heq | hlink
      · rw [rootIdOf_eq_first_parentless batch] at hr
        cases hfind : batch.find? (fun k => k.parentId = "") with
        | none => rw [hfind] at hr; cases hr
        | some m =>
          rw [hfind] at hr
          have hmid : m.nodeId = rid := by
            have := hr.symm
            simpa using this.symm
          have hmmem : m ∈ batch := List.mem_of_find?_eq_some hfind
          have hmp : m.parentId = "" := by
            have := List.find?_some hfind
            simpa using this
          have heq2 := nodeId_inj hnd m hmmem n hn (hmid.trans heq.symm)
          subst heq2
          exact hp hmp
      · obtain ⟨k, hk, hkid, _, hkc⟩ := mem_linked_sound hlink
        have heq := nodeId_inj hnd k hk n hn hkid
        subst heq
        exact hc hkc
  · intro n hn hb
    simp only [refMapOf, List.mem_filterMap]
    exact ⟨n, hn, by rw [if_pos hb]⟩


theorem strStartsWith_append (P s x : String)
    (h : strStartsWith P s) : strStartsWith P (s ++ x) := by
  obtain ⟨r, hr⟩ := h
  exact ⟨r ++ x.data, by simp [hr]⟩

theorem strStartsWith_ite (P s : String) (c : Prop) [Decidable c]
    (x : String) (h : strStartsWith P s) :
    strStartsWith P (if c then s ++ x else s) := by
  split_ifs
  · exact strStartsWith_append P s x h
  · exact h


/-- Witness for C10 on a batch with two parentless nodes and one dangling
parent: only "1" is in the returned tree; "2" and "3" are excluded while
both still appear in the reference map. -/
theorem c10_first_parentless_root_witness :
    buildTree c10batchW =
      some (.mk "1" 1 "RootWebArea" "" {} false []) ∧
    "2" ∉ treeIds (.mk "1" 1 "RootWebArea" "" {} false []) ∧
    "3" ∉ treeIds (.mk "1" 1 "RootWebArea" "" {} false []) ∧
    ("2", 2) ∈ refMapOf c10batchW ∧ ("3", 3) ∈ refMapOf c10batchW := by
  have h := c10_first_parentless_root c10batchW (by decide)
  refine ⟨by decide, ?_, ?_, ?_, ?_⟩
  · exact h.2.1 ⟨"2", "", 2, "main", "", {}, false⟩ (by decide) rfl
      ⟨"1", "", 1, "RootWebArea", "", {}, false⟩ (by decide) (by decide)
      (.mk "1" 1 "RootWebArea" "" {} false []) (by decide)
  · exact h.2.2.1 ⟨"3", "9", 3, "button", "x", {}, false⟩ (by decide)
      (by decide) (by decide)
      (.mk "1" 1 "RootWebArea" "" {} false []) (by decide)
  · exact h.2.2.2 ⟨"2", "", 2, "main", "", {}, false⟩ (by decide)
      (by decide)
  · exact h.2.2.2 ⟨"3", "9", 3, "button", "x", {}, false⟩ (by decide)
      (by decide)

/-- Claim C8: the spec lists "prove your humanity" and "file a ticket"
among the challenge phrases (and the repository changelog for the shipped
version 0.4.2 documents both), but `isChallengePage` tests neither: a
tree whose flattened accessible-name text contains "prove your humanity"
is not classified as a challenge page, so no hybrid fallback runs. -/
theorem c8_challenge_detector_misses_reddit_phrases :
    kwIncludes
      (lowerStr (flattenTreeText (.mk "1" 0 "heading" "Prove your humanity"
        {} false []))) "prove your humanity" = true ∧
    isChallengePage
      (some (.mk "1" 0 "heading" "Prove your humanity" {} false [])) =
      false ∧
    isChallengePage
      (some (.mk "1" 0 "heading" "File a ticket" {} false [])) = false := by
  refine ⟨by decide, by decide, by decide⟩

/-- The fourteen own entries of the key table dispatch keyDown then
keyUp carrying the table row. -/
theorem pressOwn_table : ∀ k ∈ keyNames, ∃ d : KeyDef,
    KEY_MAP.find? (fun pr => pr.1 = k) = some (k, d) ∧
    press k = .ok
      [Cmd.keyEvent "keyDown" d.key d.code d.keyCode 0 d.text,
       Cmd.keyEvent "keyUp" d.key d.code d.keyCode 0 d.text] := by
  intro k hk
  rw [show keyNames = ["Enter", "Tab", "Escape", "Backspace", "Delete",
    "ArrowUp", "ArrowDown", "ArrowLeft", "ArrowRight", "Home", "End",
    "PageUp", "PageDown", "Space"] from by decide] at hk
  simp only [List.mem_cons, List.not_mem_nil, or_false] at hk
  rcases hk with rfl | rfl | rfl | rfl | rfl | rfl | rfl | rfl | rfl |
    rfl | rfl | rfl | rfl | rfl
  all_goals exact ⟨_, rfl, rfl⟩

/-- `press` throws for a name exactly when it is neither an own entry of
the table nor an inherited `Object.prototype` member name. -/
theorem press_isOk_iff : ∀ k, (press k).isOk = true ↔
    (k ∈ keyNames ∨ k ∈ objectProtoKeys) := by
  intro k
  constructor
  · intro h
    unfold press at h
    cases hf : KEY_MAP.find? (fun pr => pr.1 = k) with
    | none =>
      rw [hf] at h
      by_cases hc : objectProtoKeys.contains k = true
      · exact Or.inr (by simpa using hc)
      · rw [if_neg hc] at h
        simp [Except.isOk, Except.toBool] at h
    | some pr =>
      have hmem := List.mem_of_find?_eq_some hf
      have hk : pr.1 = k := by
        have := List.find?_some hf
        simpa using this
      subst hk
      exact Or.inl (by simp only [keyNames]; exact List.mem_map_of_mem _ hmem)
  · intro h
    unfold press
    cases hf : KEY_MAP.find? (fun pr => pr.1 = k) with
    | some pr => simp [Except.isOk, Except.toBool]
    | none =>
      rcases h with hmem | hproto
      · have : (KEY_MAP.find? (fun pr => pr.1 = k)).isSome := by
          apply List.find?_isSome.mpr
          simp only [keyNames, List.mem_map] at hmem
          obtain ⟨pr, hpr, hk⟩ := hmem
          exact ⟨pr, hpr, by simp [hk]⟩
        rw [hf] at this
        simp at this
      · rw [if_pos (by simpa using hproto)]
        simp [Except.isOk, Except.toBool]

/-- Every name that is neither an own table entry nor an inherited
`Object.prototype` member name fails with the UnknownKey error listing
the valid names. -/
theorem pressUnknown_error : ∀ k, k ∉ keyNames → k ∉ objectProtoKeys →
    press k = .error ("Unknown key: \"" ++ k ++ "\". Valid keys: " ++
      String.intercalate ", " keyNames) := by
  intro k h hp
  have hf : KEY_MAP.find? (fun pr => pr.1 = k) = none := by
    apply List.find?_eq_none.mpr
    intro pr hpr
    simp only [decide_eq_true_eq]
    intro hk
    exact h (by simp only [keyNames]; exact hk ▸ List.mem_map_of_mem _ hpr)
  unfold press
  rw [hf, if_neg (fun hc => hp (by simpa using hc))]

/-- Claim C9: the fourteen table names behave as documented — Enter and
Tab carry their texts, an ordinary unknown name such as Meta fails with
the UnknownKey error — but the claimed universal is false of the
program: `KEY_MAP` is a plain object, so the name of an inherited
`Object.prototype` member, here `toString` and `__proto__`, finds a
truthy value, skips the UnknownKey guard, and dispatches a keyDown/keyUp
pair all of whose key fields are `undefined`, instead of failing with
UnknownKey and emitting nothing. -/
theorem c9_press_inherited_names :
    keyNames = ["Enter", "Tab", "Escape", "Backspace", "Delete", "ArrowUp",
      "ArrowDown", "ArrowLeft", "ArrowRight", "Home", "End", "PageUp",
      "PageDown", "Space"] ∧
    press "Enter" = .ok
      [Cmd.keyEvent "keyDown" "Enter" "Enter" 13 0 (some "\r"),
       Cmd.keyEvent "keyUp" "Enter" "Enter" 13 0 (some "\r")] ∧
    press "Tab" = .ok
      [Cmd.keyEvent "keyDown" "Tab" "Tab" 9 0 (some "\t"),
       Cmd.keyEvent "keyUp" "Tab" "Tab" 9 0 (some "\t")] ∧
    press "Meta" = .error ("Unknown key: \"Meta\". Valid keys: " ++
      String.intercalate ", " keyNames) ∧
    "toString" ∉ keyNames ∧
    press "toString" =
      .ok [Cmd.keyEventBare "keyDown", Cmd.keyEventBare "keyUp"] ∧
    "__proto__" ∉ keyNames ∧
    press "__proto__" =
      .ok [Cmd.keyEventBare "keyDown", Cmd.keyEventBare "keyUp"] := by
  exact ⟨by decide, by decide, by decide, by decide, by decide, by decide,
    by decide, by decide⟩

theorem mem_refMapOf_snd_ne_zero {batch : List RawNode}
    {pr : String × Nat} (h : pr ∈ refMapOf batch) : pr.2 ≠ 0 := by
  simp only [refMapOf, List.mem_filterMap] at h
  obtain ⟨n, _, hn⟩ := h
  by_cases hb : n.backendDOMNodeId ≠ 0
  · rw [if_pos hb] at hn
    cases hn
    exact hb
  · rw [if_neg hb] at hn
    cases hn

theorem refGet_eq_zero_iff (batch : List RawNode) (ref : String) :
    refGet (refMapOf batch) ref = 0 ↔ ref ∉ refMapKeys batch := by
  constructor
  · intro h0 hmem
    simp only [refMapKeys, List.mem_map] at hmem
    obtain ⟨pr, hpr, hk⟩ := hmem
    have hsome : ((refMapOf batch).reverse.find?
        (fun q => q.1 = ref)).isSome := by
      apply List.find?_isSome.mpr
      exact ⟨pr, List.mem_reverse.mpr hpr, by simp [hk]⟩
    unfold refGet at h0
    cases hf : (refMapOf batch).reverse.find? (fun q => q.1 = ref) with
    | none => rw [hf] at hsome; simp at hsome
    | some pr' =>
      rw [hf] at h0
      have : pr' ∈ refMapOf batch :=
        List.mem_reverse.mp (List.mem_of_find?_eq_some hf)
      exact mem_refMapOf_snd_ne_zero this h0
  · intro hnot
    have hf : (refMapOf batch).reverse.find? (fun q => q.1 = ref) = none := by
      apply List.find?_eq_none.mpr
      intro pr hpr
      simp only [decide_eq_true_eq]
      intro hk
      apply hnot
      simp only [refMapKeys, List.mem_map]
      exact ⟨pr, List.mem_reverse.mp hpr, hk⟩
    unfold refGet
    rw [hf]

/-- Claim C6: every reference-based page-handle operation resolves the
token against the current reference map first; a token that is not a key
fails with the ReferenceUnknown error before any CDP command is issued,
and a token that is a key proceeds with the mapped DOM back-identifier. -/
theorem c6_reference_operations (batch : List RawNode) (box : Quad)
    (tagOf : Nat → String) (ref toRef text value : String)
    (files : List String) (clear keyEvents : Bool) :
    (ref ∉ refMapKeys batch →
      handleClick (refMapOf batch) box ref = .error (errNoElement ref) ∧
      handleType (refMapOf batch) ref text clear keyEvents =
        .error (errNoElement ref) ∧
      handleHover (refMapOf batch) box ref = .error (errNoElement ref) ∧
      handleSelect (refMapOf batch) box tagOf ref value =
        .error (errNoElement ref) ∧
      handleDrag (refMapOf batch) box ref toRef =
        .error (errNoElement ref) ∧
      handleUpload (refMapOf batch) ref files =
        .error (errNoElement ref)) ∧
    (ref ∈ refMapKeys batch →
      refGet (refMapOf batch) ref ≠ 0 ∧
      handleClick (refMapOf batch) box ref =
        .ok (clickCmds box (refGet (refMapOf batch) ref)) ∧
      handleType (refMapOf batch) ref text clear keyEvents =
        .ok (typeCmds (refGet (refMapOf batch) ref) text clear keyEvents) ∧
      handleHover (refMapOf batch) box ref =
        .ok (hoverCmds box (refGet (refMapOf batch) ref)) ∧
      handleSelect (refMapOf batch) box tagOf ref value =
        .ok (selectCmds box tagOf (refGet (refMapOf batch) ref) value) ∧
      handleUpload (refMapOf batch) ref files =
        .ok (uploadCmds files (refGet (refMapOf batch) ref)) ∧
      (toRef ∈ refMapKeys batch →
        handleDrag (refMapOf batch) box ref toRef =
          .ok (dragCmds box (refGet (refMapOf batch) ref)
            (refGet (refMapOf batch) toRef)))) := by
  constructor
  · intro hnot
    have h0 : refGet (refMapOf batch) ref = 0 :=
      (refGet_eq_zero_iff batch ref).mpr hnot
    refine ⟨?_, ?_, ?_, ?_, ?_, ?_⟩ <;>
      simp [handleClick, handleType, handleHover, handleSelect,
        handleDrag, handleUpload, h0]
  · intro hmem
    have hne : refGet (refMapOf batch) ref ≠ 0 := by
      intro h0
      exact (refGet_eq_zero_iff batch ref).mp h0 hmem
    refine ⟨hne, ?_, ?_, ?_, ?_, ?_, ?_⟩
    · simp [handleClick, hne]
    · simp [handleType, hne]
    · simp [handleHover, hne]
    · simp [handleSelect, hne]
    · simp [handleUpload, hne]
    · intro hmem2
      have hne2 : refGet (refMapOf batch) toRef ≠ 0 := by
        intro h0
        exact (refGet_eq_zero_iff batch toRef).mp h0 hmem2
      simp [handleDrag, hne, hne2]



/-- Witness for C6 on a one-node batch: the unknown token "9" fails with
the ReferenceUnknown error and the known token "1" proceeds with the
mapped back-identifier 5. -/
theorem c6_reference_operations_witness :
    ("9" ∉ refMapKeys refFixture ∧
      handleClick (refMapOf refFixture) boxZero "9" =
        .error (errNoElement "9")) ∧
    ("1" ∈ refMapKeys refFixture ∧
      handleClick (refMapOf refFixture) boxZero "1" =
        .ok (clickCmds boxZero 5)) := by
  constructor
  · exact ⟨by decide,
      ((c6_reference_operations refFixture boxZero (fun _ => "SELECT")
          "9" "9" "" "" [] false false).1 (by decide)).1⟩
  · refine ⟨by decide, ?_⟩
    have h := ((c6_reference_operations refFixture boxZero
        (fun _ => "SELECT") "1" "1" "" "" [] false false).2
        (by decide)).2.1
    rwa [show refGet (refMapOf refFixture) "1" = 5 from by decide] at h


/-- Counterexample for C5: collapsing an unnamed generic wrapper with two
children yields a `_promote` node, and the formatter emits an output line
for that node itself (`- _promote`) rather than treating it as
transparent. -/
theorem c5_counterexample :
    collapse c5wrapper =
      some (.mk "" 0 "_promote" "" {} false
        [.mk "1" 0 "button" "A" {} false [],
         .mk "2" 0 "button" "B" {} false []]) ∧
    (formatTree (.mk "" 0 "_promote" "" {} false
        [.mk "1" 0 "button" "A" {} false [],
         .mk "2" 0 "button" "B" {} false []]) 0).data.takeWhile
      (fun c => c ≠ '\n') = "- _promote".data := by
  exact ⟨by decide, by decide⟩

theorem strStartsWith_ite2 (P : String) (c : Prop) [Decidable c]
    (s t : String) (h1 : strStartsWith P s) (h2 : strStartsWith P t) :
    strStartsWith P (if c then s else t) := by
  split_ifs
  · exact h1
  · exact h2

theorem strStartsWith_refl (P : String) : strStartsWith P P :=
  ⟨[], by simp⟩

theorem strStartsWith_congr (P Q s : String) (h : P.data = Q.data)
    (hs : strStartsWith P s) : strStartsWith Q s := by
  obtain ⟨r, hr⟩ := hs
  exact ⟨r, by rw [hr, h]⟩

theorem strStartsWith_app3 (P s a b c : String)
    (h : strStartsWith P s) : strStartsWith P (s ++ a ++ b ++ c) :=
  strStartsWith_append _ _ _
    (strStartsWith_append _ _ _ (strStartsWith_append _ _ _ h))

/-- Every non-skipped output line starts with the indent, the bullet and
the node's role. -/
theorem lineFor_startsWith (n : AXNode) (d : Nat) (h : ¬n.role = "") :
    strStartsWith (indentOf d ++ "- " ++ n.role) (lineFor n d) := by
  obtain ⟨i, b, r, nm, p, g, cs⟩ := n
  simp only [AXNode.role] at h ⊢
  unfold lineFor
  simp only [AXNode.role, AXNode.name, AXNode.props, AXNode.nodeId]
  rw [if_neg h]
  apply strStartsWith_ite2
  · apply strStartsWith_app3
    apply strStartsWith_ite2
    · apply strStartsWith_app3
      apply strStartsWith_ite2
      · apply strStartsWith_app3
        exact strStartsWith_refl _
      · exact strStartsWith_refl _
    · apply strStartsWith_ite2
      · apply strStartsWith_app3
        exact strStartsWith_refl _
      · exact strStartsWith_refl _
  · apply strStartsWith_ite2
    · apply strStartsWith_app3
      apply strStartsWith_ite2
      · apply strStartsWith_app3
        exact strStartsWith_refl _
      · exact strStartsWith_refl _
    · apply strStartsWith_ite2
      · apply strStartsWith_app3
        exact strStartsWith_refl _
      · exact strStartsWith_refl _

/-- Claim C5 (amended): for every unnamed structural node the
wrapper-collapse stage replaces it by its only collapsed child, keeps it
with the special role `_promote` when several children remain, and drops
it when none remain; the formatter does not treat `_promote` as
transparent: a non-ignored `_promote` node emits its own output line
(starting `- _promote` after the indent) followed by its children's
lines. -/
theorem c5_wrapper_collapse :
    (∀ (i : String) (b : Nat) (r : String) (p : Props) (g : Bool)
      (cs : List AXNode), STRUCTURAL.contains r = true →
      collapse (.mk i b r "" p g cs) =
        (match collapseList cs with
         | [] => none
         | [c] => some c
         | _ => some (.mk i b "_promote" "" p g (collapseList cs)))) ∧
    (∀ (m : AXNode) (d : Nat), m.role = "_promote" → m.ignored = false →
      formatTree m d =
        String.intercalate "\n" (lineFor m d ::
          (formatList m.children (d + 1)).filter (fun s => s ≠ "")) ∧
      strStartsWith (indentOf d ++ "- _promote") (lineFor m d)) := by
  constructor
  · intro i b r p g cs hr
    unfold collapse
    rw [if_pos (Or.inl ⟨hr, rfl⟩)]
  · intro m d hrole hig
    obtain ⟨i, b, r, nm, p, g, cs⟩ := m
    simp only [AXNode.role] at hrole
    simp only [AXNode.ignored] at hig
    subst hrole
    subst hig
    constructor
    · rw [formatTree]
      rw [if_neg (by simp), if_neg (by decide)]
      rfl
    · have h := lineFor_startsWith (.mk i b "_promote" nm p false cs) d
        (by simp [AXNode.role])
      apply strStartsWith_congr _ _ _ _ h
      simp [AXNode.role]

/-- Witness for C5 at a concrete unnamed generic wrapper with two
collapsed children and at the resulting `_promote` node. -/
theorem c5_wrapper_collapse_witness :
    collapse (.mk "w" 0 "generic" "" {} false
      [.mk "1" 0 "button" "A" {} false [],
       .mk "2" 0 "button" "B" {} false []]) =
      some (.mk "w" 0 "_promote" "" {} false
        [.mk "1" 0 "button" "A" {} false [],
         .mk "2" 0 "button" "B" {} false []]) ∧
    strStartsWith (indentOf 0 ++ "- _promote")
      (lineFor (.mk "w" 0 "_promote" "" {} false
        [.mk "1" 0 "button" "A" {} false [],
         .mk "2" 0 "button" "B" {} false []]) 0) := by
  constructor
  · have h := c5_wrapper_collapse.1 "w" 0 "generic" {} false
      [.mk "1" 0 "button" "A" {} false [],
       .mk "2" 0 "button" "B" {} false []] (by decide)
    exact h.trans (by decide)
  · exact (c5_wrapper_collapse.2 (.mk "w" 0 "_promote" "" {} false
      [.mk "1" 0 "button" "A" {} false [],
       .mk "2" 0 "button" "B" {} false []]) 0 rfl rfl).2


/-- Counterexample for C3: running the act-mode pipeline twice on
`c3tree` prunes strictly more than running it once (the orphaned-heading
pass fires on the second run only, after link deduplication removed the
interactive sibling that protected the heading in the first run). -/
theorem c3_counterexample :
    prune (prune (some c3tree) "act" "") "act" "" ≠
      prune (some c3tree) "act" "" := by
  decide

theorem collapseList_mem :
    ∀ (cs : List AXNode) (c2 : AXNode),
      c2 ∈ collapseList cs ↔ ∃ c ∈ cs, collapse c = some c2
  | [], c2 => by simp [collapseList]
  | c :: rest, c2 => by
    rw [collapseList]
    cases hc : collapse c with
    | none =>
      rw [collapseList_mem rest c2]
      constructor
      · rintro ⟨d, hd, hcol⟩
        exact ⟨d, List.mem_cons_of_mem _ hd, hcol⟩
      · rintro ⟨d, hd, hcol⟩
        rcases List.mem_cons.mp hd with rfl | hd2
        · rw [hc] at hcol; cases hcol
        · exact ⟨d, hd2, hcol⟩
    | some c2' =>
      simp only [List.mem_cons, collapseList_mem rest c2]
      constructor
      · rintro (rfl | ⟨d, hd, hcol⟩)
        · exact ⟨c, Or.inl rfl, hc⟩
        · exact ⟨d, Or.inr hd, hcol⟩
      · rintro ⟨d, rfl | hd2, hcol⟩
        · rw [hc] at hcol
          exact Or.inl (Option.some.inj hcol).symm
        · exact Or.inr ⟨d, hd2, hcol⟩

theorem collapseList_fixed :
    ∀ cs : List AXNode, (∀ x ∈ cs, collapse x = some x) →
      collapseList cs = cs
  | [], _ => rfl
  | c :: rest, h => by
    rw [collapseList, h c (List.mem_cons_self ..),
      collapseList_fixed rest (fun x hx => h x (List.mem_cons_of_mem _ hx))]

theorem collapse_fix_aux :
    ∀ (k : Nat) (n : AXNode), sizeOf n ≤ k →
      ∀ t, collapse n = some t → collapse t = some t := by
  intro k
  induction k with
  | zero =>
    intro n h
    obtain ⟨i, b, r, nm, p, g, cs⟩ := n
    simp at h
  | succ k ih =>
    intro n hle t hc
    obtain ⟨i, b, r, nm, p, g, cs⟩ := n
    have hfix : ∀ c2 ∈ collapseList cs, collapse c2 = some c2 := by
      intro c2 hc2
      obtain ⟨c, hcmem, hcol⟩ := (collapseList_mem cs c2).mp hc2
      have hsz1 : sizeOf c < sizeOf cs := List.sizeOf_lt_of_mem hcmem
      have hsz2 : sizeOf (AXNode.mk i b r nm p g cs) =
          1 + sizeOf i + sizeOf b + sizeOf r + sizeOf nm + sizeOf p +
            sizeOf g + sizeOf cs := by
        simp
      have hck : sizeOf c ≤ k := by omega
      have ht2 := ih c hck c2 hcol
      -- collapse c2 = some c2 needs one more twist: ih gives it directly
      exact ht2
    have hlist : collapseList (collapseList cs) = collapseList cs :=
      collapseList_fixed _ hfix
    rw [collapse] at hc
    by_cases hmain : (STRUCTURAL.contains r ∧ nm = "") ∨
        ("LayoutTable".data.isPrefixOf r.data || r = "row" || r = "cell" ||
          r = "rowgroup") = true
    · rw [if_pos hmain] at hc
      cases hcs2 : collapseList cs with
      | nil => rw [hcs2] at hc; cases hc
      | cons c2 rest =>
        cases rest with
        | nil =>
          rw [hcs2] at hc
          have ht : t = c2 := (Option.some.inj hc).symm
          subst ht
          exact hfix t (hcs2 ▸ List.mem_cons_self ..)
        | cons c3 rest2 =>
          rw [hcs2] at hc
          have ht : t = .mk i b "_promote" nm p g (collapseList cs) := by
            rw [hcs2]
            exact (Option.some.inj hc).symm
          subst ht
          rw [collapse, hlist]
          have hno : ¬((STRUCTURAL.contains "_promote" ∧ nm = "") ∨
              ("LayoutTable".data.isPrefixOf "_promote".data ||
                "_promote" = "row" || "_promote" = "cell" ||
                "_promote" = "rowgroup") = true) := by
            rintro (⟨h1, _⟩ | h2)
            · exact absurd h1 (by decide)
            · exact absurd h2 (by decide)
          rw [if_neg hno]
    · rw [if_neg hmain] at hc
      have ht : t = .mk i b r nm p g (collapseList cs) :=
        (Option.some.inj hc).symm
      subst ht
      rw [collapse, hlist, if_neg hmain]

/-- Claim C3 (amended): the full pipeline is not idempotent (see the
counterexample), but its wrapper-collapse stage is: any tree `collapse`
returns is a fixed point of `collapse`, and collapsing a child list twice
equals collapsing it once. -/
theorem c3_collapse_idempotent :
    (∀ n t : AXNode, collapse n = some t → collapse t = some t) ∧
    (∀ cs : List AXNode,
      collapseList (collapseList cs) = collapseList cs) := by
  constructor
  · intro n t hc
    exact collapse_fix_aux (sizeOf n) n (Nat.le_refl _) t hc
  · intro cs
    apply collapseList_fixed
    intro x hx
    obtain ⟨c, _, hcol⟩ := (collapseList_mem cs x).mp hx
    exact collapse_fix_aux (sizeOf c) c (Nat.le_refl _) x hcol

mutual

/-- Every reference the formatter emits is the nonempty `nodeId` of a
node of the formatted tree. -/
theorem emittedRefs_sub :
    ∀ (n : AXNode), ∀ r ∈ emittedRefs n, r ≠ "" ∧ r ∈ treeIds n
  | .mk i b ro nm p g cs, r, hr => by
    rw [emittedRefs] at hr
    by_cases hg : g = true
    · rw [if_pos hg] at hr
      have := emittedRefsList_sub cs r hr
      exact ⟨this.1, by simp [treeIds, this.2]⟩
    · rw [if_neg hg] at hr
      by_cases hs : ariaSkipRoles.contains ro = true
      · rw [if_pos hs] at hr
        cases hr
      · rw [if_neg hs] at hr
        rcases List.mem_append.mp hr with hhead | htail
        · by_cases hi : i ≠ ""
          · rw [if_pos hi] at hhead
            have : r = i := by simpa using hhead
            subst this
            exact ⟨hi, by simp [treeIds]⟩
          · rw [if_neg hi] at hhead
            cases hhead
        · have := emittedRefsList_sub cs r htail
          exact ⟨this.1, by simp [treeIds, this.2]⟩

theorem emittedRefsList_sub :
    ∀ (cs : List AXNode), ∀ r ∈ emittedRefsList cs,
      r ≠ "" ∧ r ∈ treeIdsList cs
  | c :: rest, r, hr => by
    rw [emittedRefsList] at hr
    rcases List.mem_append.mp hr with hh | ht
    · have := emittedRefs_sub c r hh
      exact ⟨this.1, by simp [treeIdsList, List.mem_append, this.2]⟩
    · have := emittedRefsList_sub rest r ht
      exact ⟨this.1, by simp [treeIdsList, List.mem_append, this.2]⟩

end

mutual

/-- Every node listed by `flatten` contributes its identifier to the
forest's identifier list. -/
theorem flattenT_nodeId_mem :
    ∀ (ns : List AXNode), ∀ m ∈ flattenT ns, m.nodeId ∈ treeIdsList ns
  | n :: rest, m, hm => by
    rw [flattenT] at hm
    rcases List.mem_cons.mp hm with rfl | hm2
    · obtain ⟨i, b, ro, nm, p, g, cs⟩ := m
      simp [treeIdsList, treeIds, List.mem_append, AXNode.nodeId]
    · rcases List.mem_append.mp hm2 with hch | ht
      · have := flattenChildren_nodeId_mem n m hch
        obtain ⟨i, b, ro, nm, p, g, cs⟩ := n
        simp only [AXNode.children] at this
        simp [treeIdsList, treeIds, List.mem_append, this]
      · have := flattenT_nodeId_mem rest m ht
        simp [treeIdsList, List.mem_append, this]

theorem flattenChildren_nodeId_mem :
    ∀ (n : AXNode), ∀ m ∈ flattenChildren n,
      m.nodeId ∈ treeIdsList n.children
  | .mk i b ro nm p g cs, m, hm => by
    rw [flattenChildren] at hm
    simpa using flattenT_nodeId_mem cs m hm

end

/-- Witness for C3 at a concrete wrapper whose collapse produces a
`_promote` node: that node is a fixed point of `collapse`. -/
theorem c3_collapse_idempotent_witness :
    collapse (.mk "v" 0 "_promote" "" {} false
      [.mk "5" 0 "link" "L" {} false [],
       .mk "6" 0 "link" "M" {} false []]) =
    some (.mk "v" 0 "_promote" "" {} false
      [.mk "5" 0 "link" "L" {} false [],
       .mk "6" 0 "link" "M" {} false []]) :=
  c3_collapse_idempotent.1
    (.mk "v" 0 "list" "" {} false
      [.mk "5" 0 "link" "L" {} false [],
       .mk "6" 0 "link" "M" {} false []])
    (.mk "v" 0 "_promote" "" {} false
      [.mk "5" 0 "link" "L" {} false [],
       .mk "6" 0 "link" "M" {} false []]) (by decide)


theorem condenseCard_ids : ∀ (n t : AXNode), condenseCard n = some t →
    ∀ x ∈ treeIds t, x ∈ treeIds n := by
  intro n t h x hx
  simp only [condenseCard] at h
  cases hf : (flattenT [n]).find? (fun m => m.role = "link" && m.name ≠ "") with
  | none => rw [hf] at h; cases h
  | some l =>
    rw [hf] at h
    have ht : t = .mk n.nodeId 0 "listitem" "" {} false [l.withChildren []] :=
      (Option.some.inj h).symm
    subst ht
    have hl : l ∈ flattenT [n] := List.mem_of_find?_eq_some hf
    have hlid : l.nodeId ∈ treeIdsList [n] := flattenT_nodeId_mem [n] l hl
    obtain ⟨i, b, r, nm, p, g, cs⟩ := n
    obtain ⟨li, lb, lr, lnm, lp, lg, lcs⟩ := l
    simp only [treeIds, treeIdsList, AXNode.nodeId, AXNode.withChildren,
      List.mem_cons, List.mem_append, List.append_nil] at hx hlid ⊢
    rcases hx with rfl | rfl | hx
    · exact Or.inl rfl
    · simpa using hlid
    · cases hx

theorem collapseColors_ids : ∀ (n t : AXNode), collapseColors n = some t →
    ∀ x ∈ treeIds t, x ∈ treeIds n := by
  intro n t h x hx
  simp only [collapseColors] at h
  split_ifs at h with hc
  · cases hf : (flattenT [n]).find? (fun m => m.role = "link" && m.name ≠ "") with
    | none => rw [hf] at h; cases h
    | some l =>
      rw [hf] at h
      have ht : t = l.withChildren [] := (Option.some.inj h).symm
      subst ht
      have hl : l ∈ flattenT [n] := List.mem_of_find?_eq_some hf
      have hlid : l.nodeId ∈ treeIdsList [n] := flattenT_nodeId_mem [n] l hl
      obtain ⟨li, lb, lr, lnm, lp, lg, lcs⟩ := l
      simp only [AXNode.withChildren, treeIds, treeIdsList, AXNode.nodeId,
        List.mem_cons, List.append_nil] at hx hlid ⊢
      rcases hx with rfl | hx
      · simpa using hlid
      · cases hx
  · have ht := (Option.some.inj h).symm
    subst ht
    obtain ⟨i, b, r, nm, p, g, cs⟩ := n
    simp only [treeIds, treeIdsList, AXNode.nodeId, List.mem_cons] at hx ⊢
    rcases hx with rfl | hx
    · exact Or.inl rfl
    · cases hx

set_option maxHeartbeats 2000000 in
mutual
theorem pruneNode_ids : ∀ (n : AXNode) (ctx : Ctx) (t : AXNode),
    pruneNode n ctx = some t → ∀ x ∈ treeIds t, x ∈ treeIds n
  | .mk i b r nm p g cs, ctx, t, h, x, hx => by
    simp only [pruneNode] at h
    by_cases h1 : pruneSkipRoles.contains r = true
    case pos => rw [if_pos h1] at h; cases h
    rw [if_neg h1] at h
    by_cases h2 : ctx.mode = "act" ∧ r = "link" ∧ ctx.parentRole = "paragraph"
    case pos => rw [if_pos h2] at h; cases h
    rw [if_neg h2] at h
    by_cases h3 : r = "paragraph"
    case pos =>
      rw [if_pos h3] at h
      by_cases h3a : ctx.mode = "act"
      case pos => rw [if_pos h3a] at h; cases h
      rw [if_neg h3a] at h
      have ht := (Option.some.inj h).symm
      subst ht
      simp only [treeIds, List.mem_cons] at hx ⊢
      rcases hx with rfl | hx
      · exact Or.inl rfl
      · exact Or.inr (pruneChildren_ids cs _ x hx)
    rw [if_neg h3] at h
    by_cases h4 : ctx.mode = "browse" ∧ r = "navigation"
    case pos => rw [if_pos h4] at h; cases h
    rw [if_neg h4] at h
    by_cases h5 : r = "code"
    case pos =>
      rw [if_pos h5] at h
      have ht := (Option.some.inj h).symm
      subst ht
      exact hx
    rw [if_neg h5] at h
    by_cases h6 : r = "term" ∨ r = "definition"
    case pos =>
      rw [if_pos h6] at h
      have ht := (Option.some.inj h).symm
      subst ht
      simp only [treeIds, List.mem_cons] at hx ⊢
      rcases hx with rfl | hx
      · exact Or.inl rfl
      · exact Or.inr (pruneChildren_ids cs _ x hx)
    rw [if_neg h6] at h
    by_cases h7 : ctx.mode = "browse" ∧ (r = "strong" ∨ r = "emphasis" ∨ r = "blockquote")
    case pos =>
      rw [if_pos h7] at h
      have ht := (Option.some.inj h).symm
      subst ht
      simp only [treeIds, List.mem_cons] at hx ⊢
      rcases hx with rfl | hx
      · exact Or.inl rfl
      · exact Or.inr (pruneChildren_ids cs _ x hx)
    rw [if_neg h7] at h
    by_cases h8 : ctx.mode = "browse" ∧ r = "figure"
    case pos =>
      rw [if_pos h8] at h
      by_cases h8a : nm ≠ ""
      case pos =>
        rw [if_pos h8a] at h
        have ht := (Option.some.inj h).symm
        subst ht
        simp only [treeIds, List.mem_cons, treeIdsList] at hx ⊢
        rcases hx with rfl | hx
        · exact Or.inl rfl
        · exact absurd hx (List.not_mem_nil x)
      rw [if_neg h8a] at h
      cases h
    rw [if_neg h8] at h
    by_cases h9 : INTERACTIVE.contains r = true
    case pos =>
      rw [if_pos h9] at h
      have ht := (Option.some.inj h).symm
      subst ht
      simp only [treeIds, List.mem_cons] at hx ⊢
      rcases hx with rfl | hx
      · exact Or.inl rfl
      · exact Or.inr (pruneChildren_ids cs _ x hx)
    rw [if_neg h9] at h
    by_cases h10 : ¬ctx.mode = "browse" ∧ ¬ctx.keywords.isEmpty = true ∧
        r = "listitem" ∧ hasInteractive (AXNode.mk i b r nm p g cs) = true ∧
        ¬(ctx.keywords.any fun kw =>
          kwIncludes (lowerStr (extractText (AXNode.mk i b r nm p g cs))) kw) = true
    case pos =>
      rw [if_pos h10] at h
      exact condenseCard_ids _ _ h x hx
    rw [if_neg h10] at h
    by_cases h11 : GROUPS.contains r = true ∧ nm ≠ ""
    case pos =>
      rw [if_pos h11] at h
      have ht := (Option.some.inj h).symm
      subst ht
      simp only [treeIds, List.mem_cons] at hx ⊢
      rcases hx with rfl | hx
      · exact Or.inl rfl
      · exact Or.inr (pruneChildren_ids cs _ x hx)
    rw [if_neg h11] at h
    by_cases h12 : r = "group" ∧ nm ≠ ""
    case pos =>
      rw [if_pos h12] at h
      by_cases h12a : ¬ctx.mode = "browse" ∧ colorsPat nm = true
      case pos =>
        rw [if_pos h12a] at h
        exact collapseColors_ids _ _ h x hx
      rw [if_neg h12a] at h
      have ht := (Option.some.inj h).symm
      subst ht
      simp only [treeIds, List.mem_cons] at hx ⊢
      rcases hx with rfl | hx
      · exact Or.inl rfl
      · exact Or.inr (pruneChildren_ids cs _ x hx)
    rw [if_neg h12] at h
    by_cases h13 : r = "heading"
    case pos =>
      rw [if_pos h13] at h
      by_cases h13a : ¬ctx.mode = "browse" ∧ ¬p.level = some 1 ∧ nm ≠ "" ∧
          descriptionPat nm = true
      case pos => rw [if_pos h13a] at h; cases h
      rw [if_neg h13a] at h
      have ht := (Option.some.inj h).symm
      subst ht
      simp only [treeIds, List.mem_cons, treeIdsList] at hx ⊢
      rcases hx with rfl | hx
      · exact Or.inl rfl
      · exact absurd hx (List.not_mem_nil x)
    rw [if_neg h13] at h
    by_cases h14 : r = "StaticText"
    case pos =>
      rw [if_pos h14] at h
      by_cases h14a : keepText (AXNode.mk i b r nm p g cs) ctx.mode = true
      case pos =>
        rw [if_pos h14a] at h
        have ht := (Option.some.inj h).symm
        subst ht
        exact hx
      rw [if_neg h14a] at h
      cases h
    rw [if_neg h14] at h
    by_cases h15 : r = "img" ∨ r = "image"
    case pos =>
      rw [if_pos h15] at h
      by_cases h15a : ctx.mode = "browse" ∧ nm ≠ ""
      case pos =>
        rw [if_pos h15a] at h
        have ht := (Option.some.inj h).symm
        subst ht
        simp only [treeIds, List.mem_cons, treeIdsList] at hx ⊢
        rcases hx with rfl | hx
        · exact Or.inl rfl
        · exact absurd hx (List.not_mem_nil x)
      rw [if_neg h15a] at h
      cases h
    rw [if_neg h15] at h
    by_cases h16 : r = "separator"
    case pos => rw [if_pos h16] at h; cases h
    rw [if_neg h16] at h
    by_cases h17 : r = "complementary"
    case pos =>
      rw [if_pos h17] at h
      by_cases h17a : ctx.mode = "browse"
      case pos =>
        rw [if_pos h17a] at h
        have ht := (Option.some.inj h).symm
        subst ht
        simp only [treeIds, List.mem_cons] at hx ⊢
        rcases hx with rfl | hx
        · exact Or.inl rfl
        · exact Or.inr (pruneChildren_ids cs _ x hx)
      rw [if_neg h17a] at h
      cases h
    rw [if_neg h17] at h
    by_cases h18 : r = "region" ∧ ¬ctx.mode = "browse" ∧ nm ≠ "" ∧
        auxRegionPat nm = true
    case pos => rw [if_pos h18] at h; cases h
    rw [if_neg h18] at h
    by_cases h19 : ctx.mode = "browse" ∧ (r = "note" ∨ r = "status")
    case pos =>
      rw [if_pos h19] at h
      have ht := (Option.some.inj h).symm
      subst ht
      simp only [treeIds, List.mem_cons] at hx ⊢
      rcases hx with rfl | hx
      · exact Or.inl rfl
      · exact Or.inr (pruneChildren_ids cs _ x hx)
    rw [if_neg h19] at h
    by_cases h20 : ¬ctx.mode = "browse" ∧ r = "list" ∧
        ((pruneChildren cs ⟨ctx.mode, r, ctx.keywords⟩).all
          fun c => !hasInteractive c) = true
    case pos => rw [if_pos h20] at h; cases h
    rw [if_neg h20] at h
    by_cases h21 : ¬ctx.mode = "browse" ∧ r = "listitem" ∧
        ¬hasInteractive (AXNode.mk i b r nm p g cs) = true
    case pos => rw [if_pos h21] at h; cases h
    rw [if_neg h21] at h
    by_cases h22 : ¬(pruneChildren cs ⟨ctx.mode, r, ctx.keywords⟩).isEmpty = true
    case pos =>
      rw [if_pos h22] at h
      have ht := (Option.some.inj h).symm
      subst ht
      simp only [treeIds, List.mem_cons] at hx ⊢
      rcases hx with rfl | hx
      · exact Or.inl rfl
      · exact Or.inr (pruneChildren_ids cs _ x hx)
    rw [if_neg h22] at h
    cases h

theorem pruneChildren_ids : ∀ (cs : List AXNode) (ctx : Ctx),
    ∀ x ∈ treeIdsList (pruneChildren cs ctx), x ∈ treeIdsList cs
  | [], ctx, x, hx => by rw [pruneChildren] at hx; exact hx
  | c :: rest, ctx, x, hx => by
    rw [pruneChildren] at hx
    cases hp : pruneNode c ctx with
    | none =>
      rw [hp] at hx
      have := pruneChildren_ids rest ctx x hx
      simp [treeIdsList, List.mem_append, this]
    | some c2 =>
      rw [hp] at hx
      simp only [treeIdsList, List.mem_append] at hx ⊢
      rcases hx with hh | ht
      · exact Or.inl (pruneNode_ids c ctx c2 hp x hh)
      · exact Or.inr (pruneChildren_ids rest ctx x ht)
end

/-- Membership-monotonicity of the forest identifier list. -/
theorem treeIdsList_mono {l l2 : List AXNode}
    (hsub : ∀ c ∈ l2, c ∈ l) :
    ∀ x ∈ treeIdsList l2, x ∈ treeIdsList l := by
  intro x hx
  obtain ⟨c, hc, hxc⟩ := (treeIdsList_mem l2 x).mp hx
  exact (treeIdsList_mem l x).mpr ⟨c, hsub c hc, hxc⟩

theorem unwrapWebArea_ids (ns : List AXNode) :
    ∀ x ∈ treeIdsList (unwrapWebArea ns), x ∈ treeIdsList ns := by
  intro x hx
  cases ns with
  | nil => rw [unwrapWebArea] at hx; exact hx
  | cons n rest =>
    cases rest with
    | cons m rest2 => rw [unwrapWebArea] at hx; exact hx
    | nil =>
      rw [unwrapWebArea] at hx
      by_cases hroot : (n.role = "RootWebArea" || n.role = "WebArea") = true
      · rw [if_pos hroot] at hx
        obtain ⟨i, b, r, nm, p, g, cs⟩ := n
        simp only [AXNode.children] at hx
        simp [treeIdsList, treeIds, List.mem_append, hx]
      · rw [if_neg hroot] at hx
        exact hx

theorem extractRegions_ids (ns : List AXNode) (allowed : List String) :
    ∀ x ∈ treeIdsList (extractRegions ns allowed), x ∈ treeIdsList ns := by
  intro x hx
  simp only [extractRegions] at hx
  apply unwrapWebArea_ids ns x
  exact treeIdsList_mono (fun c hc => List.mem_filter.mp hc |>.1) x hx

mutual

theorem collapse_ids : ∀ (n t : AXNode), collapse n = some t →
    ∀ x ∈ treeIds t, x ∈ treeIds n
  | .mk i b r nm p g cs, t, h, x, hx => by
    rw [collapse] at h
    split_ifs at h with hcond
    · cases hcs : collapseList cs with
      | nil => rw [hcs] at h; cases h
      | cons c rest =>
        cases rest with
        | nil =>
          rw [hcs] at h
          have ht : t = c := (Option.some.inj h).symm
          subst ht
          have hx2 : x ∈ treeIdsList (collapseList cs) := by
            rw [hcs]
            simp [treeIdsList, List.mem_append, hx]
          have := collapseList_ids cs x hx2
          simp [treeIds, List.mem_cons, this]
        | cons c2 rest2 =>
          rw [hcs] at h
          have ht : t = .mk i b "_promote" nm p g (collapseList cs) := by
            rw [hcs]
            exact (Option.some.inj h).symm
          subst ht
          simp only [treeIds, List.mem_cons] at hx ⊢
          rcases hx with rfl | hx
          · exact Or.inl rfl
          · exact Or.inr (collapseList_ids cs x hx)
    · have ht : t = .mk i b r nm p g (collapseList cs) :=
        (Option.some.inj h).symm
      subst ht
      simp only [treeIds, List.mem_cons] at hx ⊢
      rcases hx with rfl | hx
      · exact Or.inl rfl
      · exact Or.inr (collapseList_ids cs x hx)

theorem collapseList_ids : ∀ (cs : List AXNode),
    ∀ x ∈ treeIdsList (collapseList cs), x ∈ treeIdsList cs
  | [], x, hx => by rw [collapseList] at hx; exact hx
  | c :: rest, x, hx => by
    rw [collapseList] at hx
    cases hc : collapse c with
    | none =>
      rw [hc] at hx
      have := collapseList_ids rest x hx
      simp [treeIdsList, List.mem_append, this]
    | some c2 =>
      rw [hc] at hx
      simp only [treeIdsList, List.mem_append] at hx ⊢
      rcases hx with hh | ht
      · exact Or.inl (collapse_ids c c2 hc x hh)
      · exact Or.inr (collapseList_ids rest x ht)

end

theorem dropOrphanedHeadings_ids :
    ∀ (l : List AXNode), ∀ x ∈ treeIdsList (dropOrphanedHeadings l),
      x ∈ treeIdsList l
  | [], x, hx => by rw [dropOrphanedHeadings] at hx; exact hx
  | c :: rest, x, hx => by
    rw [dropOrphanedHeadings] at hx
    split_ifs at hx
    · have := dropOrphanedHeadings_ids rest x hx
      simp [treeIdsList, List.mem_append, this]
    · simp only [treeIdsList, List.mem_append] at hx ⊢
      rcases hx with hh | ht
      · exact Or.inl hh
      · exact Or.inr (dropOrphanedHeadings_ids rest x ht)

mutual

theorem postClean_ids : ∀ (n : AXNode) (ib : Bool) (t : AXNode),
    postClean n ib = some t → ∀ x ∈ treeIds t, x ∈ treeIds n
  | .mk i b r nm p g cs, ib, t, h, x, hx => by
    simp only [postClean] at h
    split_ifs at h with hcb
    · have ht := (Option.some.inj h).symm
      subst ht
      simp only [treeIds, List.mem_cons, treeIdsList] at hx ⊢
      rcases hx with rfl | hx
      · exact Or.inl rfl
      · exact absurd hx (List.not_mem_nil x)
    · have ht := (Option.some.inj h).symm
      subst ht
      simp only [treeIds, List.mem_cons] at hx ⊢
      rcases hx with rfl | hx
      · exact Or.inl rfl
      · exact Or.inr (postCleanList_ids cs ib x hx)
    · have ht := (Option.some.inj h).symm
      subst ht
      simp only [treeIds, List.mem_cons] at hx ⊢
      rcases hx with rfl | hx
      · exact Or.inl rfl
      · exact Or.inr (postCleanList_ids cs ib x
          (dropOrphanedHeadings_ids _ x hx))

theorem postCleanList_ids : ∀ (cs : List AXNode) (ib : Bool),
    ∀ x ∈ treeIdsList (postCleanList cs ib), x ∈ treeIdsList cs
  | [], ib, x, hx => by rw [postCleanList] at hx; exact hx
  | c :: rest, ib, x, hx => by
    rw [postCleanList] at hx
    cases hc : postClean c ib with
    | none =>
      rw [hc] at hx
      have := postCleanList_ids rest ib x hx
      simp [treeIdsList, List.mem_append, this]
    | some c2 =>
      rw [hc] at hx
      simp only [treeIdsList, List.mem_append] at hx ⊢
      rcases hx with hh | ht
      · exact Or.inl (postClean_ids c ib c2 hc x hh)
      · exact Or.inr (postCleanList_ids rest ib x ht)

end

mutual

theorem dedupLinksIn_ids : ∀ (n : AXNode) (seen : List String)
    (t : AXNode), (dedupLinksIn n seen).1 = some t →
    ∀ x ∈ treeIds t, x ∈ treeIds n
  | .mk i b r nm p g cs, seen, t, h, x, hx => by
    simp only [dedupLinksIn] at h
    split_ifs at h
    all_goals
      first
      | (have ht := (Option.some.inj h).symm; subst ht;
         simp only [treeIds, List.mem_cons] at hx ⊢;
         exact hx.imp id (fun hx2 => dedupLinksList_ids cs _ x hx2))
      | cases h

theorem dedupLinksList_ids : ∀ (cs : List AXNode) (seen : List String),
    ∀ x ∈ treeIdsList (dedupLinksList cs seen).1, x ∈ treeIdsList cs
  | [], seen, x, hx => by rw [dedupLinksList] at hx; exact hx
  | c :: rest, seen, x, hx => by
    simp only [dedupLinksList] at hx
    cases hc : (dedupLinksIn c seen).1 with
    | none =>
      rw [hc] at hx
      have := dedupLinksList_ids rest (dedupLinksIn c seen).2 x hx
      simp [treeIdsList, List.mem_append, this]
    | some c2 =>
      rw [hc] at hx
      simp only [treeIdsList, List.mem_append] at hx ⊢
      rcases hx with hh | ht
      · exact Or.inl (dedupLinksIn_ids c seen c2 hc x hh)
      · exact Or.inr (dedupLinksList_ids rest _ x ht)

end

theorem dedupLinks_ids (ns : List AXNode) :
    ∀ x ∈ treeIdsList (dedupLinks ns), x ∈ treeIdsList ns := by
  intro x hx
  exact dedupLinksList_ids ns [] x hx

mutual

theorem dropNoiseButtons_ids : ∀ (n t : AXNode),
    dropNoiseButtons n = some t → ∀ x ∈ treeIds t, x ∈ treeIds n
  | .mk i b r nm p g cs, t, h, x, hx => by
    rw [dropNoiseButtons] at h
    split_ifs at h
    all_goals
      first
      | (have ht := (Option.some.inj h).symm; subst ht;
         simp only [treeIds, List.mem_cons] at hx ⊢;
         exact hx.imp id (fun hx2 => dropNoiseButtonsList_ids cs x hx2))
      | cases h

theorem dropNoiseButtonsList_ids : ∀ (cs : List AXNode),
    ∀ x ∈ treeIdsList (dropNoiseButtonsList cs), x ∈ treeIdsList cs
  | [], x, hx => by rw [dropNoiseButtonsList] at hx; exact hx
  | c :: rest, x, hx => by
    rw [dropNoiseButtonsList] at hx
    cases hc : dropNoiseButtons c with
    | none =>
      rw [hc] at hx
      have := dropNoiseButtonsList_ids rest x hx
      simp [treeIdsList, List.mem_append, this]
    | some c2 =>
      rw [hc] at hx
      simp only [treeIdsList, List.mem_append] at hx ⊢
      rcases hx with hh | ht
      · exact Or.inl (dropNoiseButtons_ids c c2 hc x hh)
      · exact Or.inr (dropNoiseButtonsList_ids rest x ht)

end

mutual

theorem truncateAfterFooter_ids : ∀ (l : List AXNode),
    ∀ x ∈ treeIdsList (truncateAfterFooter l), x ∈ treeIdsList l
  | [], x, hx => by rw [truncateAfterFooter] at hx; exact hx
  | .mk i b r nm p g cs :: rest, x, hx => by
    simp only [truncateAfterFooter] at hx
    split_ifs at hx
    all_goals
      first
      | exact absurd hx (List.not_mem_nil x)
      | (have h2 := truncateAfterFooter_ids rest x hx;
         simp only [treeIdsList, List.mem_append];
         exact Or.inr h2)
      | (simp only [treeIdsList, List.mem_append, treeIds,
           List.mem_cons] at hx ⊢;
         refine hx.imp (fun hh => hh.imp id (fun h2 => ?_))
           (fun ht => truncateAfterFooter_ids rest x ht);
         exact truncChildren_ids (.mk i b r nm p g cs) x h2)
      | (simp only [treeIdsList, List.mem_append, treeIds,
           List.mem_cons] at hx ⊢;
         exact hx.imp id (fun ht => truncateAfterFooter_ids rest x ht))

theorem truncChildren_ids : ∀ (n : AXNode),
    ∀ x ∈ treeIdsList (truncChildren n), x ∈ treeIdsList n.children
  | .mk i b r nm p g cs, x, hx => by
    rw [truncChildren] at hx
    simpa [AXNode.children] using truncateAfterFooter_ids cs x hx

end

mutual

theorem dropFilterGroups_ids : ∀ (n t : AXNode),
    dropFilterGroups n = some t → ∀ x ∈ treeIds t, x ∈ treeIds n
  | .mk i b r nm p g cs, t, h, x, hx => by
    simp only [dropFilterGroups] at h
    split_ifs at h
    all_goals
      first
      | (have ht := (Option.some.inj h).symm; subst ht;
         simp only [treeIds, List.mem_cons] at hx ⊢;
         exact hx.imp id (fun hx2 => dropFilterGroupsList_ids cs x hx2))
      | cases h

theorem dropFilterGroupsList_ids : ∀ (cs : List AXNode),
    ∀ x ∈ treeIdsList (dropFilterGroupsList cs), x ∈ treeIdsList cs
  | [], x, hx => by rw [dropFilterGroupsList] at hx; exact hx
  | c :: rest, x, hx => by
    rw [dropFilterGroupsList] at hx
    cases hc : dropFilterGroups c with
    | none =>
      rw [hc] at hx
      have := dropFilterGroupsList_ids rest x hx
      simp [treeIdsList, List.mem_append, this]
    | some c2 =>
      rw [hc] at hx
      simp only [treeIdsList, List.mem_append] at hx ⊢
      rcases hx with hh | ht
      · exact Or.inl (dropFilterGroups_ids c c2 hc x hh)
      · exact Or.inr (dropFilterGroupsList_ids rest x ht)

end

/-- Lift a per-node identifier-subset property over `filterMap`. -/
theorem filterMap_treeIds {f : AXNode → Option AXNode}
    (hf : ∀ n t, f n = some t → ∀ x ∈ treeIds t, x ∈ treeIds n) :
    ∀ (ns : List AXNode), ∀ x ∈ treeIdsList (ns.filterMap f),
      x ∈ treeIdsList ns
  | [], x, hx => by simpa using hx
  | c :: rest, x, hx => by
    rw [List.filterMap_cons] at hx
    cases hc : f c with
    | none =>
      rw [hc] at hx
      have := filterMap_treeIds hf rest x hx
      simp [treeIdsList, List.mem_append, this]
    | some c2 =>
      rw [hc] at hx
      simp only [treeIdsList, List.mem_append] at hx ⊢
      rcases hx with hh | ht
      · exact Or.inl (hf c c2 hc x hh)
      · exact Or.inr (filterMap_treeIds hf rest x ht)

/-- Every identifier of a stage-4 pipeline result is an identifier of the
input tree. -/
theorem pruneStage4_ids (tree : Option AXNode) (mode context : String) :
    ∀ x ∈ treeIdsList (pruneStage4 tree mode context),
      x ∈ treeIdsOpt tree := by
  intro x hx
  simp only [pruneStage4] at hx
  have hbase : ∀ y ∈ treeIdsList
      (match tree with | some t => [t] | none => []),
      y ∈ treeIdsOpt tree := by
    intro y hy
    cases tree with
    | none => simpa [treeIdsList] using hy
    | some t =>
      simpa [treeIdsList, treeIdsOpt, List.mem_append] using hy
  apply hbase
  apply extractRegions_ids _ (modeRegions mode) x
  apply filterMap_treeIds
    (fun n t ht => pruneNode_ids n ⟨mode, "", pruneKeywords context⟩ t ht) _ x
  apply filterMap_treeIds collapse_ids _ x
  exact filterMap_treeIds
    (fun n t ht => postClean_ids n (mode = "browse") t ht) _ x hx

/-- Every identifier surviving all list-level stages is an identifier of
the input tree. -/
theorem pruneStages_ids (tree : Option AXNode) (mode context : String) :
    ∀ x ∈ treeIdsList (pruneStages tree mode context),
      x ∈ treeIdsOpt tree := by
  intro x hx
  rw [pruneStages] at hx
  by_cases hmb : mode = "browse"
  · rw [if_neg (by simp [hmb])] at hx
    exact pruneStage4_ids tree mode context x hx
  · rw [if_pos (by simp [hmb])] at hx
    apply pruneStage4_ids tree mode context x
    apply dedupLinks_ids _ x
    apply filterMap_treeIds dropNoiseButtons_ids _ x
    apply truncateAfterFooter_ids _ x
    exact filterMap_treeIds dropFilterGroups_ids _ x hx

/-- Identifiers survive the whole pruning pipeline: every identifier of
the pruned tree is an identifier of the input tree, or the empty
identifier of the synthetic multi-root wrapper. -/
theorem prune_ids (tree : Option AXNode) (mode context : String) :
    ∀ x ∈ treeIdsOpt (prune tree mode context),
      x ∈ treeIdsOpt tree ∨ x = "" := by
  intro x hx
  rw [prune] at hx
  cases hcase : pruneStages tree mode context with
  | nil =>
    rw [hcase] at hx
    exact absurd hx (List.not_mem_nil x)
  | cons m rest =>
    rw [hcase] at hx
    cases rest with
    | nil =>
      have hm : x ∈ treeIds m := hx
      refine Or.inl (pruneStages_ids tree mode context x ?_)
      rw [hcase]
      simpa [treeIdsList] using hm
    | cons m2 rest2 =>
      have hm : x ∈ treeIds
          (.mk "" 0 "root" "" {} false (m :: m2 :: rest2)) := hx
      simp only [treeIds, List.mem_cons] at hm
      rcases hm with rfl | hm
      · exact Or.inr rfl
      · refine Or.inl (pruneStages_ids tree mode context x ?_)
        rw [hcase]
        exact hm

theorem nodeContent_mem {batch : List RawNode} {id : String}
    {rcd : RawNode} (h : nodeContent batch id = some rcd) : rcd ∈ batch := by
  have := List.mem_of_find?_eq_some h
  exact List.mem_reverse.mp this

theorem buildNode_batch_ids (batch : List RawNode) :
    ∀ (fuel : Nat) (id : String) (t : AXNode),
      buildNode batch fuel id = some t →
      ∀ x ∈ treeIds t, ∃ n ∈ batch, n.nodeId = x := by
  intro fuel
  induction fuel with
  | zero => intro id t h; cases h
  | succ fuel ih =>
    intro id t h x hx
    unfold buildNode at h
    cases hc : nodeContent batch id with
    | none => rw [hc] at h; cases h
    | some rcd =>
      rw [hc] at h
      have ht : t = .mk rcd.nodeId rcd.backendDOMNodeId rcd.role rcd.name
          rcd.props rcd.ignored
          ((childIdsOf batch id).filterMap (buildNode batch fuel)) := by
        cases h; rfl
      subst ht
      simp only [treeIds, List.mem_cons] at hx
      rcases hx with rfl | hx
      · exact ⟨rcd, nodeContent_mem hc, rfl⟩
      · obtain ⟨c, hcmem, hxc⟩ := (treeIdsList_mem _ x).mp hx
        obtain ⟨cid, hcid, hbuild⟩ := List.mem_filterMap.mp hcmem
        exact ih cid c hbuild x hxc

theorem buildTree_batch_ids (batch : List RawNode) (t : AXNode)
    (h : buildTree batch = some t) :
    ∀ x ∈ treeIds t, ∃ n ∈ batch, n.nodeId = x := by
  unfold buildTree at h
  cases hr : rootIdOf batch with
  | none => rw [hr] at h; cases h
  | some rid =>
    rw [hr] at h
    exact buildNode_batch_ids batch batch.length rid t h

theorem mem_refMapKeys_iff (batch : List RawNode) (r : String) :
    r ∈ refMapKeys batch ↔
      ∃ n ∈ batch, n.nodeId = r ∧ n.backendDOMNodeId ≠ 0 := by
  simp only [refMapKeys, refMapOf, List.mem_map, List.mem_filterMap]
  constructor
  · rintro ⟨pr, ⟨n, hn, hif⟩, hfst⟩
    by_cases hb : n.backendDOMNodeId ≠ 0
    · rw [if_pos hb] at hif
      cases hif
      exact ⟨n, hn, hfst, hb⟩
    · rw [if_neg hb] at hif
      cases hif
  · rintro ⟨n, hn, hr, hb⟩
    exact ⟨(n.nodeId, n.backendDOMNodeId), ⟨n, hn, by rw [if_pos hb]⟩, hr⟩

/-- Counterexample for C1: a batch whose single record has no DOM
back-identifier still yields a formatted document containing the token
`[ref=1]`, while the reference map installed from the same batch is
empty — the token is not a key of the map. -/
theorem c1_counterexample :
    occursToks [Tok.lit "[ref=1]".data]
      (formatTreeOpt (buildTree c1batch)).data = true ∧
    refMapKeys c1batch = [] := by decide

/-- C1 (amended): every `[ref=N]` token the formatter emits — for the raw
built tree or for its pruned form in any mode — carries the identifier of
a record of the raw batch, and that identifier is a key of the snapshot's
reference map exactly when some record with this identifier has a nonzero
DOM back-identifier. -/
theorem c1_snapshot_refs (batch : List RawNode) (mode context r : String)
    (h : r ∈ emittedRefsOpt (buildTree batch) ∨
         r ∈ emittedRefsOpt (prune (buildTree batch) mode context)) :
    (∃ n ∈ batch, n.nodeId = r) ∧
    (r ∈ refMapKeys batch ↔
      ∃ n ∈ batch, n.nodeId = r ∧ n.backendDOMNodeId ≠ 0) := by
  refine ⟨?_, mem_refMapKeys_iff batch r⟩
  rcases h with h1 | h2
  · cases hbt : buildTree batch with
    | none =>
      rw [hbt] at h1
      exact absurd h1 (List.not_mem_nil r)
    | some t =>
      rw [hbt] at h1
      have hsub := emittedRefs_sub t r h1
      exact buildTree_batch_ids batch t hbt r hsub.2
  · cases hpr : prune (buildTree batch) mode context with
    | none =>
      rw [hpr] at h2
      exact absurd h2 (List.not_mem_nil r)
    | some t =>
      rw [hpr] at h2
      have hsub := emittedRefs_sub t r h2
      have hin : r ∈ treeIdsOpt (prune (buildTree batch) mode context) := by
        rw [hpr]
        exact hsub.2
      rcases prune_ids (buildTree batch) mode context r hin with hmem | hre
      · cases hbt : buildTree batch with
        | none =>
          rw [hbt] at hmem
          exact absurd hmem (List.not_mem_nil r)
        | some t0 =>
          rw [hbt] at hmem
          exact buildTree_batch_ids batch t0 hbt r hmem
      · exact absurd hre hsub.1

theorem c1_snapshot_refs_witness :
    (∃ n ∈ c1wbatch, n.nodeId = "2") ∧
    ("2" ∈ refMapKeys c1wbatch ↔
      ∃ n ∈ c1wbatch, n.nodeId = "2" ∧ n.backendDOMNodeId ≠ 0) :=
  c1_snapshot_refs c1wbatch "act" "" "2" (by decide)

/-- Counterexample for C4: the second of two identically named links under
main is an interactive-role descendant of main with its own reference,
yet act-mode pruning removes it (link deduplication keeps only the first
occurrence of the name). -/
theorem c4_counterexample :
    "2" ∈ emittedRefsOpt (some c4dupTree) ∧
    "2" ∉ emittedRefsOpt (prune (some c4dupTree) "act" "") := by decide

set_option maxHeartbeats 4000000 in
set_option maxRecDepth 4096 in
/-- C4 (amended): an interactive-role child of main — any of the
seventeen interactive roles, any identifier and back-identifier, with a
vocabulary-neutral name — survives act-mode pruning verbatim: the pruned
output is the main landmark with the element's name and reference
intact. -/
theorem c4_act_preserves_interactive (mid cid : String) (mb cb : Nat)
    (r : String) (hr : r ∈ INTERACTIVE) :
    prune (some (c4tree mid cid mb cb r)) "act" "" =
      some (.mk mid mb "main" "" {} false
        [.mk cid cb r "Zq" {} false []]) := by
  simp only [INTERACTIVE, List.mem_cons, List.mem_singleton] at hr
  rcases hr with rfl|rfl|rfl|rfl|rfl|rfl|rfl|rfl|rfl|rfl|rfl|rfl|rfl|rfl|rfl|rfl|rfl|h
  all_goals first | rfl | exact absurd h (List.not_mem_nil r)

theorem c4_act_preserves_interactive_witness :
    prune (some (c4tree "m" "5" 3 9 "button")) "act" "" =
      some (.mk "m" 3 "main" "" {} false
        [.mk "5" 9 "button" "Zq" {} false []]) :=
  c4_act_preserves_interactive "m" "5" 3 9 "button" (by decide)

theorem strData_append (a b : String) : (a ++ b).data = a.data ++ b.data :=
  rfl

theorem strMk_data : ∀ s : String, String.mk s.data = s
  | ⟨_⟩ => rfl

theorem takeWhile_all_app {α : Type} (p : α → Bool) :
    ∀ (l1 l2 : List α), (∀ c ∈ l1, p c = true) →
      (l1 ++ l2).takeWhile p = l1 ++ l2.takeWhile p
  | [], l2, _ => by simp
  | a :: t, l2, h => by
    have ha := h a (by simp)
    simp only [List.cons_append, List.takeWhile_cons, ha, if_true]
    rw [takeWhile_all_app p t l2 (fun c hc => h c (by simp [hc]))]

theorem dropWhile_all_app {α : Type} (p : α → Bool) :
    ∀ (l1 l2 : List α), (∀ c ∈ l1, p c = true) →
      (l1 ++ l2).dropWhile p = l2.dropWhile p
  | [], l2, _ => by simp
  | a :: t, l2, h => by
    have ha := h a (by simp)
    simp only [List.cons_append, List.dropWhile_cons, ha, if_true]
    exact dropWhile_all_app p t l2 (fun c hc => h c (by simp [hc]))

theorem takeWhile_cons_false {α : Type} (p : α → Bool) (a : α) (l : List α)
    (h : p a = false) : (a :: l).takeWhile p = [] := by
  simp [List.takeWhile_cons, h]

theorem dropWhile_cons_false {α : Type} (p : α → Bool) (a : α) (l : List α)
    (h : p a = false) : (a :: l).dropWhile p = a :: l := by
  simp [List.dropWhile_cons, h]

theorem takeWhile_lit_app {α : Type} (p : α → Bool) :
    ∀ (l1 l2 : List α), l1.takeWhile p = [] → l1 ≠ [] →
      (l1 ++ l2).takeWhile p = []
  | [], _, _, hne => absurd rfl hne
  | a :: t, l2, h, _ => by
    have ha : p a = false := by
      by_contra hc
      rw [List.takeWhile_cons, if_pos (by simpa using hc)] at h
      cases h
    simp only [List.cons_append]
    exact takeWhile_cons_false p a (t ++ l2) ha

theorem dropWhile_lit_app {α : Type} (p : α → Bool) :
    ∀ (l1 l2 : List α), l1.takeWhile p = [] → l1 ≠ [] →
      (l1 ++ l2).dropWhile p = l1 ++ l2
  | [], _, _, hne => absurd rfl hne
  | a :: t, l2, h, _ => by
    have ha : p a = false := by
      by_contra hc
      rw [List.takeWhile_cons, if_pos (by simpa using hc)] at h
      cases h
    simp only [List.cons_append]
    exact dropWhile_cons_false p a (t ++ l2) ha

theorem stripPrefixL_append : ∀ (p r : List Char),
    stripPrefixL p (p ++ r) = some r
  | [], r => by simp [stripPrefixL]
  | c :: ps, r => by
    rw [List.cons_append, stripPrefixL, if_pos rfl]
    exact stripPrefixL_append ps r

theorem digCh_isDigit (k : Nat) : (digCh k).isDigit = true := by
  unfold digCh
  split <;> rfl

theorem digitVal_digCh (k : Nat) (h : k < 10) : digitVal (digCh k) = k := by
  interval_cases k <;> rfl

theorem natDigitsF_digit : ∀ (fuel n : Nat), ∀ c ∈ natDigitsF fuel n,
    c.isDigit = true
  | 0, n, c, hc => absurd hc (List.not_mem_nil c)
  | fuel + 1, n, c, hc => by
    rw [natDigitsF] at hc
    split_ifs at hc
    · have : c = digCh n := by simpa using hc
      subst this
      exact digCh_isDigit n
    · rcases List.mem_append.mp hc with h1 | h2
      · exact natDigitsF_digit fuel (n / 10) c h1
      · have : c = digCh (n % 10) := by simpa using h2
        subst this
        exact digCh_isDigit (n % 10)

theorem digitsVal_append (l : List Char) (c : Char) :
    digitsVal (l ++ [c]) = 10 * digitsVal l + digitVal c := by
  simp [digitsVal, List.foldl_append]

theorem digitsVal_natDigitsF : ∀ (fuel n : Nat), n ≤ fuel →
    digitsVal (natDigitsF (fuel + 1) n) = n
  | 0, n, hn => by
    interval_cases n
    rfl
  | fuel + 1, n, hn => by
    rw [natDigitsF]
    by_cases h10 : n < 10
    · rw [if_pos h10]
      have : digitsVal [digCh n] = digitVal (digCh n) := by
        simp [digitsVal]
      rw [this, digitVal_digCh n h10]
    · rw [if_neg h10]
      have hlt : n / 10 < n := Nat.div_lt_self (by omega) (by omega)
      rw [digitsVal_append, digitsVal_natDigitsF fuel (n / 10) (by omega),
        digitVal_digCh (n % 10) (Nat.mod_lt n (by omega))]
      omega

theorem digitsVal_natDigits (n : Nat) : digitsVal (natDigits n) = n :=
  digitsVal_natDigitsF n n (Nat.le_refl n)

theorem natDigits_ne_nil (n : Nat) : natDigits n ≠ [] := by
  rw [natDigits, natDigitsF]
  split_ifs
  · simp
  · simp

theorem group3_mem : ∀ (l : List Char), ∀ x ∈ group3 l, x ∈ l ∨ x = ','
  | [], x, hx => by rw [group3] at hx; exact absurd hx (List.not_mem_nil x)
  | [a], x, hx => by rw [group3] at hx; exact Or.inl hx
  | [a, b], x, hx => by rw [group3] at hx; exact Or.inl hx
  | [a, b, c], x, hx => by rw [group3] at hx; exact Or.inl hx
  | a :: b :: c :: d :: rest, x, hx => by
    rw [group3] at hx
    simp only [List.mem_cons] at hx ⊢
    rcases hx with rfl | rfl | rfl | rfl | hx
    · exact Or.inl (Or.inl rfl)
    · exact Or.inl (Or.inr (Or.inl rfl))
    · exact Or.inl (Or.inr (Or.inr (Or.inl rfl)))
    · exact Or.inr rfl
    · rcases group3_mem (d :: rest) x hx with hm | hcomma
      · simp only [List.mem_cons] at hm
        rcases hm with rfl | hm
        · exact Or.inl (Or.inr (Or.inr (Or.inr (Or.inl rfl))))
        · exact Or.inl (Or.inr (Or.inr (Or.inr (Or.inr hm))))
      · exact Or.inr hcomma

theorem group3_filter : ∀ (l : List Char), (∀ c ∈ l, c.isDigit = true) →
    (group3 l).filter Char.isDigit = l
  | [], _ => by rw [group3]; rfl
  | [a], h => by
    rw [group3]
    simp [List.filter_cons, h a (by simp)]
  | [a, b], h => by
    rw [group3]
    simp [List.filter_cons, h a (by simp), h b (by simp)]
  | [a, b, c], h => by
    rw [group3]
    simp [List.filter_cons, h a (by simp), h b (by simp), h c (by simp)]
  | a :: b :: c :: d :: rest, h => by
    rw [group3]
    have ih := group3_filter (d :: rest) (fun x hx => h x (by simp [hx]))
    simp [List.filter_cons, h a (by simp), h b (by simp), h c (by simp),
      ih, show (',' : Char).isDigit = false from rfl]

theorem groupDigits_filter (n : Nat) :
    (groupDigits n).data.filter Char.isDigit = natDigits n := by
  show ((group3 (natDigits n).reverse).reverse).filter Char.isDigit =
    natDigits n
  rw [List.filter_reverse,
    group3_filter ((natDigits n).reverse) (fun c hc =>
      natDigitsF_digit (n + 1) n c (List.mem_reverse.mp hc)),
    List.reverse_reverse]

theorem groupDigits_groupChars (n : Nat) :
    ∀ c ∈ (groupDigits n).data, isGroupChar c = true := by
  intro c hc
  have hc2 : c ∈ group3 (natDigits n).reverse := List.mem_reverse.mp hc
  rcases group3_mem _ c hc2 with hm | hcomma
  · have := natDigitsF_digit (n + 1) n c (List.mem_reverse.mp hm)
    simp [isGroupChar, this]
  · subst hcomma
    rfl

theorem groupDigits_no_newline (n : Nat) :
    ∀ c ∈ (groupDigits n).data, c ≠ '\n' := by
  intro c hc he
  subst he
  have := groupDigits_groupChars n _ hc
  exact absurd this (by decide)

theorem intStr_no_newline (i : Int) : ∀ c ∈ (intStr i).data, c ≠ '\n' := by
  intro c hc
  rw [intStr] at hc
  split_ifs at hc
  · rw [strData_append] at hc
    rcases List.mem_append.mp hc with h1 | h2
    · have : c = '-' := by simpa using h1
      subst this
      decide
    · intro he
      subst he
      exact absurd (natDigitsF_digit _ _ _ h2) (by decide)
  · intro he
    subst he
    exact absurd (natDigitsF_digit _ _ _ hc) (by decide)

theorem pctString_no_newline (rl ol : Nat) :
    ∀ c ∈ (pctString rl ol).data, c ≠ '\n' := by
  intro c hc
  rw [pctString] at hc
  split_ifs at hc
  · exact (by decide : ∀ x ∈ "NaN".data, x ≠ '\n') c hc
  · exact intStr_no_newline _ c hc

theorem statsLine_no_newline (rl ol : Nat) :
    ∀ c ∈ (statsLine rl ol).data, c ≠ '\n' := by
  intro c hc
  rw [statsLine] at hc
  simp only [strData_append, List.mem_append] at hc
  rcases hc with ((((((hc | hc) | hc) | hc) | hc) | hc) | hc)
  · exact (by decide : ∀ x ∈ "# ".data, x ≠ '\n') c hc
  · exact groupDigits_no_newline rl c hc
  · exact (by decide : ∀ x ∈ " chars → ".data, x ≠ '\n') c hc
  · exact groupDigits_no_newline ol c hc
  · exact (by decide : ∀ x ∈ " chars (".data, x ≠ '\n') c hc
  · exact pctString_no_newline rl ol c hc
  · exact (by decide : ∀ x ∈ "% pruned)".data, x ≠ '\n') c hc

theorem natDigits_isEmpty_false (n : Nat) : (natDigits n).isEmpty = false := by
  cases h : natDigits n with
  | nil => exact absurd h (natDigits_ne_nil n)
  | cons a t => rfl

theorem parseGrouped_app (n : Nat) (rest : List Char)
    (h1 : rest.takeWhile isGroupChar = [])
    (h2 : rest.dropWhile isGroupChar = rest) :
    parseGrouped ((groupDigits n).data ++ rest) = some (n, rest) := by
  rw [parseGrouped,
    takeWhile_all_app isGroupChar _ rest (groupDigits_groupChars n),
    dropWhile_all_app isGroupChar _ rest (groupDigits_groupChars n),
    h1, h2, List.append_nil, groupDigits_filter, digitsVal_natDigits,
    if_neg (by rw [natDigits_isEmpty_false]; exact Bool.false_ne_true)]

theorem natDigits_all_digit (n : Nat) :
    ∀ c ∈ natDigits n, c.isDigit = true :=
  fun c hc => natDigitsF_digit (n + 1) n c hc

theorem parsePct_intStr (i : Int) :
    parsePct ((intStr i).data ++ "% pruned)".data) = true := by
  rw [intStr]
  split_ifs with hneg
  · rw [strData_append]
    have hd : ("-".data ++ (natDigits i.natAbs)) ++ "% pruned)".data =
        '-' :: (natDigits i.natAbs ++ "% pruned)".data) := by
      simp
    rw [hd, parsePct]
    simp only [List.head?_cons, if_pos rfl, List.tail_cons, if_true]
    rw [takeWhile_all_app Char.isDigit _ _ (natDigits_all_digit i.natAbs),
      dropWhile_all_app Char.isDigit _ _ (natDigits_all_digit i.natAbs)]
    simp [natDigits_isEmpty_false]
  · obtain ⟨c, t, hct⟩ := List.exists_cons_of_ne_nil (natDigits_ne_nil i.toNat)
    have hall := natDigits_all_digit i.toNat
    rw [hct] at hall
    have hcd : c.isDigit = true := hall c (by simp)
    have hstr : (String.mk (natDigits i.toNat)).data = c :: t := by
      rw [hct]
    rw [hstr, List.cons_append, parsePct]
    have hne : ¬((c :: (t ++ "% pruned)".data)).head? = some '-') := by
      rw [List.head?_cons]
      intro he
      have : c = '-' := by simpa using he
      subst this
      exact absurd hcd (by decide)
    rw [if_neg hne, ← List.cons_append]
    rw [takeWhile_all_app Char.isDigit (c :: t) _ hall,
      dropWhile_all_app Char.isDigit (c :: t) _ hall]
    simp

theorem statsDoc_parse (rl ol : Nat) (hrl : rl ≠ 0) :
    parseStatsLine (statsLine rl ol) = some (rl, ol) := by
  rw [parseStatsLine, statsLine]
  simp only [strData_append, List.append_assoc]
  rw [stripPrefixL_append]
  simp only [Option.some_bind]
  rw [parseGrouped_app rl _
    (takeWhile_lit_app isGroupChar " chars → ".data _ (by decide) (by decide))
    (dropWhile_lit_app isGroupChar " chars → ".data _ (by decide) (by decide))]
  simp only [Option.some_bind]
  rw [stripPrefixL_append]
  simp only [Option.some_bind]
  rw [parseGrouped_app ol _
    (takeWhile_lit_app isGroupChar " chars (".data _ (by decide) (by decide))
    (dropWhile_lit_app isGroupChar " chars (".data _ (by decide) (by decide))]
  simp only [Option.some_bind]
  rw [stripPrefixL_append]
  simp only [Option.some_bind]
  rw [pctString, if_neg hrl, if_pos (parsePct_intStr (pctRound rl ol))]

theorem firstLine_statsDoc (rl ol : Nat) (out : String) :
    firstLineOf (statsLine rl ol ++ "\n" ++ out) = statsLine rl ol := by
  rw [firstLineOf, strData_append, strData_append, List.append_assoc]
  rw [show ("\n".data ++ out.data) = '\n' :: out.data from rfl]
  rw [takeWhile_all_app _ _ _
    (fun c hc => by simpa using statsLine_no_newline rl ol c hc)]
  rw [takeWhile_cons_false _ _ _ (by simp), List.append_nil, strMk_data]

theorem body_statsDoc (rl ol : Nat) (out : String) :
    bodyOf (statsLine rl ol ++ "\n" ++ out) = out := by
  rw [bodyOf, strData_append, strData_append, List.append_assoc]
  rw [show ("\n".data ++ out.data) = '\n' :: out.data from rfl]
  rw [dropWhile_all_app _ _ _
    (fun c hc => by simpa using statsLine_no_newline rl ol c hc)]
  rw [dropWhile_cons_false _ _ _ (by simp), List.drop_succ_cons,
    List.drop_zero, strMk_data]

theorem snapshotDoc_eq (batch : List RawNode) (mode : String) :
    snapshotDoc batch mode =
      statsLine (formatTreeOpt (buildTree batch)).length
        (formatTreeOpt (prune (buildTree batch) mode "")).length ++
      "\n" ++ formatTreeOpt (prune (buildTree batch) mode "") := rfl

/-- Counterexample for C7: the empty batch yields the document
`# 0 chars → 0 chars (NaN% pruned)` — the percentage field is `NaN`, not
a number, so the first line does not have the documented
`# <raw> chars → <pruned> chars (NN% pruned)` form. -/
theorem c7_counterexample :
    snapshotDoc [] "act" = "# 0 chars → 0 chars (NaN% pruned)\n" ∧
    parseStatsLine (firstLineOf (snapshotDoc [] "act")) = none := by
  constructor
  · rfl
  · rfl

/-- C7 (amended): whenever the unpruned document is nonempty, the first
line of the snapshot document parses as
`# <raw> chars → <pruned> chars (NN% pruned)`, the raw count it declares
is the character count of the unpruned document, the pruned count it
declares is exactly the character count of the body, and the body is the
pruned document itself. -/
theorem c7_stats_prefix_matches_body (batch : List RawNode) (mode : String)
    (h : formatTreeOpt (buildTree batch) ≠ "") :
    bodyOf (snapshotDoc batch mode) =
      formatTreeOpt (prune (buildTree batch) mode "") ∧
    parseStatsLine (firstLineOf (snapshotDoc batch mode)) =
      some ((formatTreeOpt (buildTree batch)).length,
        (bodyOf (snapshotDoc batch mode)).length) := by
  have hb : bodyOf (snapshotDoc batch mode) =
      formatTreeOpt (prune (buildTree batch) mode "") := by
    rw [snapshotDoc_eq]
    exact body_statsDoc _ _ _
  refine ⟨hb, ?_⟩
  have hlen : (formatTreeOpt (buildTree batch)).length ≠ 0 := by
    intro hl
    apply h
    cases hfd : formatTreeOpt (buildTree batch) with
    | mk d =>
      rw [hfd] at hl
      have : d = [] := List.length_eq_zero.mp hl
      rw [this]
  rw [hb, snapshotDoc_eq, firstLine_statsDoc]
  exact statsDoc_parse _ _ hlen

theorem c7_stats_prefix_matches_body_witness :
    bodyOf (snapshotDoc c7batch "act") =
      formatTreeOpt (prune (buildTree c7batch) "act" "") ∧
    parseStatsLine (firstLineOf (snapshotDoc c7batch "act")) =
      some ((formatTreeOpt (buildTree c7batch)).length,
        (bodyOf (snapshotDoc c7batch "act")).length) :=
  c7_stats_prefix_matches_body c7batch "act" (by decide)

end BB
